import Mathlib

set_option maxRecDepth 100000

/-!
# sre-chat-api: the SSE notification hub

A shallow embedding of `internal/models/models.go`,
`internal/handlers/sse_handler.go`, `internal/handlers/health_handler.go` and
the `CreateMessage` handler of `internal/handlers/message_handler.go`, followed
by the properties that are checked against it.

Conventions of the embedding.

* A Go channel is a record of its buffer (`buf`), its capacity and its `closed`
  flag.  The record also keeps the values that were already received (`taken`);
  no operation of the program reads that field, it only lets ordering
  properties over a whole run be stated.  Channels are identified by a natural
  number (their address); `State.chans` is the memory holding them.
* `h.clients` is a `map[chan SSEMessage]bool` whose values are all `true`; it is
  embedded as the list of its keys, in the order in which a `range` loop visits
  them.  Go leaves that order unspecified; the outcome of the loop does not
  depend on it (`fanOut_order`).
* The goroutines (the `broadcast` worker, each `StreamMessages` call, each
  caller of `NotifyNewMessage`) are interleaved at the granularity of the
  `Action`s below; the store (`database.DB`) and the outcome of a write on the
  response writer are inputs of the action that uses them.  The iteration of
  `broadcast` is also given statement by statement (`Move`, `fineRun`), the map
  being read when the loop is entered; left alone it does what the whole
  iteration does (`sweep_is_broadcast`).
-/

namespace SreChat

/-! ## models.go -/

/-- A `time.Time`, represented by its RFC 3339 text (the form `encoding/json`
writes it in). -/
structure Time where
  rfc3339 : String
deriving DecidableEq, Repr

/-- The zero `time.Time`. -/
def Time.zero : Time := ⟨"0001-01-01T00:00:00Z"⟩

instance : Inhabited Time := ⟨Time.zero⟩

/-- The struct `models.Group`.  Its has-many field `Messages` is left out: no
code path of the repository loads it (`Preload("Group")` does not load the
nested relation) and an empty slice is omitted from the JSON form. -/
structure Group where
  ID : Nat
  Name : String
  Description : String
  CreatedAt : Time
  UpdatedAt : Time
deriving DecidableEq, Repr

/-- The zero value of `models.Group`. -/
def Group.zero : Group := ⟨0, "", "", Time.zero, Time.zero⟩

instance : Inhabited Group := ⟨Group.zero⟩

/-- The struct `models.Message`; `DeletedAt` is a `gorm.DeletedAt` (a nullable
time). -/
structure Message where
  ID : Nat
  GroupID : Nat
  User : String
  Content : String
  CreatedAt : Time
  UpdatedAt : Time
  DeletedAt : Option Time
  Group : Group
deriving DecidableEq, Repr

/-- The zero value of `models.Message`. -/
def Message.zero : Message := ⟨0, 0, "", "", Time.zero, Time.zero, none, Group.zero⟩

instance : Inhabited Message := ⟨Message.zero⟩

/-! ## The store, as far as `broadcast` uses it -/

/-- The state of the store behind `database.DB`, as a query meets it: the rows
of the two tables, and whether the store is out of reach (`down`), in which
case a query returns an error other than "record not found".  The `Group`
field of a message row is not a column and plays no role. -/
structure DB where
  messages : List Message
  groups : List Group
  down : Bool := false
deriving DecidableEq, Repr

/-- The relation `Group` as `Preload("Group")` sets it on a message that was just
read: the group row with the key `GroupID`, the zero group when there is none;
a zero `GroupID` is not looked up and leaves the field as it is. -/
def DB.preloadGroup (db : DB) (message : Message) : Message :=
  if message.GroupID = 0 then message
  else { message with Group := (db.groups.find? (fun g => g.ID == message.GroupID)).getD Group.zero }

/-- The call `database.DB.Preload("Group").First(&message, message.ID)`, whose
error the caller drops: when the store is out of reach, or has no row with that
primary key that is not soft-deleted, `message` stays as it was; otherwise the
columns of that row overwrite those of `message` and the `Group` relation is
loaded. -/
def DB.First (db : DB) (message : Message) : Message :=
  if db.down then message
  else
    match db.messages.find? (fun r => r.ID == message.ID && r.DeletedAt.isNone) with
    | none => message
    | some r => db.preloadGroup { r with Group := message.Group }

/-! ## sse_handler.go: data -/

/-- The struct `SSEMessage`. -/
structure SSEMessage where
  Type_ : String
  Message : Message
deriving DecidableEq, Repr

/-- The two run-time panics of Go channels that the handler can meet. -/
inductive Panic where
  | sendOnClosedChannel
  | closeOfClosedChannel
deriving DecidableEq, Repr

/-- A `chan SSEMessage`. -/
structure Chan where
  taken : List SSEMessage
  buf : List SSEMessage
  cap : Nat
  closed : Bool
deriving DecidableEq, Repr

/-- The channel `make(chan SSEMessage, cap)`. -/
def Chan.make (cap : Nat) : Chan := ⟨[], [], cap, false⟩

/-- Everything that was ever placed on the channel, oldest first. -/
def Chan.placed (ch : Chan) : List SSEMessage := ch.taken ++ ch.buf

/-- The statement `select { case ch <- x: default: }`: a send that gives up when
the buffer is full, and panics on a closed channel. -/
def Chan.trySend (ch : Chan) (x : SSEMessage) : Except Panic Chan :=
  if ch.closed then .error .sendOnClosedChannel
  else if ch.buf.length < ch.cap then .ok { ch with buf := ch.buf ++ [x] }
  else .ok ch

/-- What a send that gives up on a full buffer leaves of an open channel. -/
def Chan.offer (ch : Chan) (x : SSEMessage) : Chan :=
  if ch.buf.length < ch.cap then { ch with buf := ch.buf ++ [x] } else ch

/-- The statement `close(ch)`. -/
def Chan.close (ch : Chan) : Except Panic Chan :=
  if ch.closed then .error .closeOfClosedChannel
  else .ok { ch with closed := true }

/-- One attempt to write a frame on the response writer, and whether it
succeeded. -/
structure Write where
  frame : String
  ok : Bool
deriving DecidableEq, Repr

/-- Where a `StreamMessages` call stands: not started, inside its `for`/`select`
loop, or returned. -/
inductive Phase where
  | idle
  | streaming
  | returned
deriving DecidableEq, Repr

/-- The local state of the `StreamMessages` call that owns a channel. -/
structure Session where
  phase : Phase
  out : List Write
  tickerRunning : Bool
  cleanups : Nat
deriving DecidableEq, Repr

/-- A call that has not started. -/
def Session.idle : Session := ⟨.idle, [], false, 0⟩

/-- The `SSEHandler` (`clients`, `notify`) with the memory around it.
`notify` is the buffer of the channel `h.notify` (capacity 100, never closed by
any code of the repository) and `drained` the messages `broadcast` has already
received from it, oldest first; `chans` holds the subscriber channels made so
far and `next` is the address of the next one; `sess` is the `StreamMessages`
call owning each channel. -/
structure State where
  clients : List Nat
  notify : List Message
  drained : List Message
  chans : Nat → Chan
  next : Nat
  sess : Nat → Session

/-- The handler `NewSSEHandler` returns: an empty map and an empty queue.  The
worker it starts (`go handler.broadcast()`) is the `broadcast` action of a run;
memory that is not allocated yet is shown as the channel `make` will return. -/
def NewSSEHandler : State where
  clients := []
  notify := []
  drained := []
  chans := fun _ => Chan.make 10
  next := 0
  sess := fun _ => Session.idle

/-! ## sse_handler.go: operations -/

/-- The method `NotifyNewMessage`: a send on `h.notify` that gives up when the 100
slots are taken. -/
def NotifyNewMessage (s : State) (message : Message) : State :=
  if s.notify.length < 100 then { s with notify := s.notify ++ [message] }
  else s

/-- The event `broadcast` builds from the message it dequeued (lines 103-108). -/
def sseMsg (db : DB) (message : Message) : SSEMessage :=
  { Type_ := "message", Message := db.First message }

/-- The loop `for clientChan := range h.clients { select { ... } }`. -/
def fanOut (ev : SSEMessage) : List Nat → (Nat → Chan) → Except Panic (Nat → Chan)
  | [], chans => .ok chans
  | c :: rest, chans =>
    match (chans c).trySend ev with
    | .error p => .error p
    | .ok ch => fanOut ev rest (Function.update chans c ch)

/-- One iteration of the `for` loop of `broadcast`; it blocks (here: leaves the
state as it is) while `h.notify` is empty. -/
def broadcast (s : State) (db : DB) : Except Panic State :=
  match s.notify with
  | [] => .ok s
  | message :: rest =>
    match fanOut (sseMsg db message) s.clients s.chans with
    | .error p => .error p
    | .ok chans => .ok { s with notify := rest, drained := s.drained ++ [message], chans := chans }

/-! ## sse_handler.go: the wire format -/

/-- One character inside a JSON string, as `encoding/json` (Go 1.22 and later)
writes it with its default HTML escaping: the quote and the backslash get a backslash, the control
characters their short or `\u00XX` form, and `<`, `>`, `&`, U+2028 and U+2029
their `\uXXXX` form. -/
def escapeChar (c : Char) : String :=
  let n := c.toNat
  if n = 34 then "\\\"" else if n = 92 then "\\\\"
  else if n = 8 then "\\b" else if n = 12 then "\\f"
  else if n = 10 then "\\n" else if n = 13 then "\\r" else if n = 9 then "\\t"
  else if n < 32 ∨ n = 60 ∨ n = 62 ∨ n = 38 then
    "\\u00" ++ String.singleton (Nat.digitChar (n / 16)) ++ String.singleton (Nat.digitChar (n % 16))
  else if n = 8232 then "\\u2028" else if n = 8233 then "\\u2029"
  else String.singleton c

/-- A Go string as a JSON string. -/
def quote (t : String) : String :=
  "\"" ++ String.join (t.toList.map escapeChar) ++ "\""

/-- A JSON object with the given keys and already encoded values, in order. -/
def renderObject (fields : List (String × String)) : String :=
  "\x7b" ++ ",".intercalate (fields.map fun kv => quote kv.1 ++ ":" ++ kv.2) ++ "\x7d"

/-- A `time.Time` as JSON: its RFC 3339 text between quotes. -/
def Time.json (t : Time) : String := "\"" ++ t.rfc3339 ++ "\""

/-- The JSON fields of a `models.Group`, from its struct tags. -/
def Group.fields (g : Group) : List (String × String) :=
  [("id", toString g.ID), ("name", quote g.Name), ("description", quote g.Description),
   ("created_at", g.CreatedAt.json), ("updated_at", g.UpdatedAt.json)]

/-- The JSON fields of a `models.Message`, from its struct tags: `DeletedAt` is
tagged `json:"-"`; `Group` is tagged `omitempty`, which `encoding/json` applies
to false, 0, nil and empty arrays, slices, maps and strings only, so that a
struct-typed field is always written. -/
def Message.fields (m : Message) : List (String × String) :=
  [("id", toString m.ID), ("group_id", toString m.GroupID), ("user", quote m.User),
   ("content", quote m.Content), ("created_at", m.CreatedAt.json),
   ("updated_at", m.UpdatedAt.json), ("group", renderObject m.Group.fields)]

/-- The JSON fields of an `SSEMessage`, from its struct tags: `Message` is
tagged `omitempty` and is of a struct type, so it is always written. -/
def SSEMessage.fields (msg : SSEMessage) : List (String × String) :=
  [("type", quote msg.Type_), ("message", renderObject msg.Message.fields)]

/-- The call `json.Marshal(msg)` of `sendSSE`. -/
def marshal (msg : SSEMessage) : String := renderObject msg.fields

/-- The function `sendSSE`: the frame it hands to the response writer; `ok` is
whether that write succeeds, and the error returned is its negation. -/
def sendSSE (msg : SSEMessage) (ok : Bool) : Write :=
  { frame := "data: " ++ marshal msg ++ "\n\n", ok := ok }

/-! ## sse_handler.go: `StreamMessages` -/

/-- A receive `<-ch`, when it can proceed: the oldest buffered value, or the zero
value once the channel is closed and empty. -/
def Chan.recv (ch : Chan) : Option (SSEMessage × Chan) :=
  match ch.buf with
  | x :: rest => some (x, { ch with taken := ch.taken ++ [x], buf := rest })
  | [] => if ch.closed then some (⟨"", Message.zero⟩, ch) else none

/-- Lines 47-66 of `StreamMessages`: make the channel, register it, write the
"connected" frame (the error of that `sendSSE` is not looked at), arm the two
deferred calls and start the ticker. -/
def StreamMessages.start (s : State) (ok : Bool) : State :=
  let messageChan := s.next
  { s with
    clients := if messageChan ∈ s.clients then s.clients else s.clients ++ [messageChan]
    chans := Function.update s.chans messageChan (Chan.make 10)
    next := messageChan + 1
    sess := Function.update s.sess messageChan
      { phase := .streaming, out := [sendSSE ⟨"connected", Message.zero⟩ ok],
        tickerRunning := true, cleanups := 0 } }

/-- The statement `delete(h.clients, messageChan)`. -/
def deleteClient (s : State) (c : Nat) : State :=
  { s with clients := s.clients.filter fun k => k != c }

/-- The deferred closure of lines 58-62: `delete(h.clients, messageChan)`, then
`close(messageChan)`. -/
def StreamMessages.cleanup (s : State) (c : Nat) : Except Panic State :=
  let s1 := deleteClient s c
  match (s1.chans c).close with
  | .error p => .error p
  | .ok ch => .ok { s1 with
      chans := Function.update s1.chans c ch
      sess := Function.update s1.sess c { s1.sess c with cleanups := (s1.sess c).cleanups + 1 } }

/-- A `return` from the loop: the deferred calls run last armed first, that is
`ticker.Stop()` and then the cleanup closure. -/
def StreamMessages.ret (s : State) (c : Nat) : Except Panic State :=
  let s1 := { s with sess := Function.update s.sess c { s.sess c with tickerRunning := false } }
  match StreamMessages.cleanup s1 c with
  | .error p => .error p
  | .ok s2 => .ok { s2 with sess := Function.update s2.sess c { s2.sess c with phase := .returned } }

/-- Appends a write attempt to the log of a session. -/
def logWrite (s : State) (c : Nat) (w : Write) : State :=
  { s with sess := Function.update s.sess c { s.sess c with out := (s.sess c).out ++ [w] } }

/-- The branch `case msg := <-messageChan` of the loop (lines 70-74), for the
session owning channel `c`; nothing happens when the session is not in its loop
or the receive cannot proceed. -/
def StreamMessages.onMessage (s : State) (c : Nat) (ok : Bool) : Except Panic State :=
  if (s.sess c).phase = .streaming then
    match (s.chans c).recv with
    | none => .ok s
    | some (msg, ch) =>
      let s1 := logWrite { s with chans := Function.update s.chans c ch } c (sendSSE msg ok)
      if ok then .ok s1 else StreamMessages.ret s1 c
  else .ok s

/-- The branch `case <-ticker.C` of the loop (lines 75-81). -/
def StreamMessages.onTick (s : State) (c : Nat) (ok : Bool) : Except Panic State :=
  if (s.sess c).phase = .streaming then
    let s1 := logWrite s c (sendSSE ⟨"ping", Message.zero⟩ ok)
    if ok then .ok s1 else StreamMessages.ret s1 c
  else .ok s

/-- The branch `case <-c.Request.Context().Done()` of the loop (lines 82-83). -/
def StreamMessages.onDone (s : State) (c : Nat) : Except Panic State :=
  if (s.sess c).phase = .streaming then StreamMessages.ret s c else .ok s

/-! ## Runs of the whole handler -/

/-- What one of the goroutines does next. -/
inductive Action where
  /-- A request handler calls `NotifyNewMessage(message)`. -/
  | notify (message : Message)
  /-- The worker runs one iteration of `broadcast`; `db` is the store then. -/
  | broadcast (db : DB)
  /-- A new `StreamMessages` call runs up to its loop; `ok`: the first write. -/
  | connect (ok : Bool)
  /-- The session of channel `c` takes the message branch; `ok`: its write. -/
  | recv (c : Nat) (ok : Bool)
  /-- The session of channel `c` takes the ticker branch; `ok`: its write. -/
  | tick (c : Nat) (ok : Bool)
  /-- The session of channel `c` sees its request context cancelled. -/
  | done (c : Nat)
deriving DecidableEq, Repr

/-- One action on the state. -/
def step (s : State) : Action → Except Panic State
  | .notify message => .ok (NotifyNewMessage s message)
  | .broadcast db => broadcast s db
  | .connect ok => .ok (StreamMessages.start s ok)
  | .recv c ok => StreamMessages.onMessage s c ok
  | .tick c ok => StreamMessages.onTick s c ok
  | .done c => StreamMessages.onDone s c

/-- A sequence of actions, stopping at the first panic. -/
def run : State → List Action → Except Panic State
  | s, [] => .ok s
  | s, a :: rest =>
    match step s a with
    | .error p => .error p
    | .ok s1 => run s1 rest

/-- The message that an action puts on `h.notify`, if any: the one of a
`NotifyNewMessage` call that finds a free slot. -/
def accepts (s : State) : Action → List Message
  | .notify message => if s.notify.length < 100 then [message] else []
  | _ => []

/-- The messages that the `NotifyNewMessage` calls of a run put on `h.notify`,
in order. -/
def accepted : State → List Action → List Message
  | _, [] => []
  | s, a :: rest =>
    accepts s a ++
    (match step s a with
      | .error _ => []
      | .ok s1 => accepted s1 rest)

/-! ## Notions used in the statements -/

/-- The event `ev` is the one `broadcast` builds from the dequeued message `m`,
for some state of the store. -/
def Built (ev : SSEMessage) (m : Message) : Prop := ∃ db, ev = sseMsg db m

/-- Between `s` and `s1` the worker dequeued the messages `d`, and what was
placed on each subscriber channel in the meantime are events built, in order,
from a subsequence of `d`. -/
def Grows (s s1 : State) (d : List Message) : Prop :=
  s1.drained = s.drained ++ d ∧
  ∀ c, ∃ evs sub, (s1.chans c).placed = (s.chans c).placed ++ evs ∧
    sub.Sublist d ∧ List.Forall₂ Built evs sub

/-- What the sessions have written, against what they have received: the write
log of the session owning channel `c` is the list of the frames of some events
(each with the outcome of its write), in order, and the events of type
"message" among these are exactly the events the session has received from its
channel, in the order of reception; the events still waiting on the channel
are of type "message". -/
def Logged (s : State) : Prop :=
  ∀ c, (∀ ev ∈ (s.chans c).buf, ev.Type_ = "message") ∧
    ∃ log : List (SSEMessage × Bool),
      (s.sess c).out = log.map (fun p => sendSSE p.1 p.2) ∧
      (log.map Prod.fst).filter (fun ev => ev.Type_ == "message") = (s.chans c).taken

/-- The invariant of the handler: what holds of the state after every run from
`NewSSEHandler` (theorem `invariant_run`).  The registry has no key twice;
a registered channel is allocated, open and owned by a session that is in its
loop; a session in its loop is registered, has not cleaned up and has its
ticker running; a session that returned has closed its channel, cleaned up
once and stopped its ticker; memory beyond `next` is untouched; the buffers
respect their capacity. -/
structure Invariant (s : State) : Prop where
  nodup : s.clients.Nodup
  registered : ∀ c ∈ s.clients,
    c < s.next ∧ (s.chans c).closed = false ∧ (s.sess c).phase = .streaming
  looping : ∀ c, (s.sess c).phase = .streaming →
    c ∈ s.clients ∧ (s.sess c).cleanups = 0 ∧ (s.sess c).tickerRunning = true
  finished : ∀ c, (s.sess c).phase = .returned →
    (s.chans c).closed = true ∧ (s.sess c).cleanups = 1 ∧ (s.sess c).tickerRunning = false
  unused : ∀ c, s.next ≤ c → s.sess c = Session.idle ∧ s.chans c = Chan.make 10
  caps : ∀ c, (s.chans c).cap = 10
  bounded : s.notify.length ≤ 100 ∧ ∀ c, (s.chans c).buf.length ≤ 10

/-! ## Concrete data for the examples -/

/-- A message as `CreateMessage` hands it to the hub. -/
def hi : Message :=
  { ID := 1, GroupID := 1, User := "alice", Content := "hi",
    CreatedAt := ⟨"2024-01-01T00:00:00Z"⟩, UpdatedAt := ⟨"2024-01-01T00:00:00Z"⟩,
    DeletedAt := none,
    Group := ⟨1, "SRE Bootcamp", "Default group for SRE Bootcamp exercises", Time.zero, Time.zero⟩ }

/-- A store in which message 1 was edited (`UpdateMessage`) after it was
created. -/
def editedStore : DB :=
  { messages := [{ hi with Content := "edited", UpdatedAt := ⟨"2024-01-01T00:00:05Z"⟩ }],
    groups := [hi.Group] }

/-- A store without rows. -/
def emptyStore : DB := { messages := [], groups := [] }

/-- The handler after one `StreamMessages` call reached its loop and one message
was published: channel 0 is registered and empty, `hi` waits in `h.notify`. -/
def oneSubscriber : State :=
  NotifyNewMessage (StreamMessages.start NewSSEHandler true) hi

/-- The event `broadcast` builds from `hi` when the store has no row for it. -/
def hiEvent : SSEMessage := ⟨"message", hi⟩

/-- A handler with two subscribers, of which the first has not read for a while:
channel 0 holds 10 events, channel 1 is empty, and `hi` waits in `h.notify`. -/
def fullAndFree : State where
  clients := [0, 1]
  notify := [hi]
  drained := List.replicate 10 hi
  chans := fun c => if c = 0 then ⟨[], List.replicate 10 hiEvent, 10, false⟩ else Chan.make 10
  next := 2
  sess := fun c =>
    if c < 2 then ⟨.streaming, [sendSSE ⟨"connected", Message.zero⟩ true], true, 0⟩
    else Session.idle

/-- A handler whose publish queue holds 100 messages. -/
def fullQueue : State :=
  { NewSSEHandler with notify := List.replicate 100 hi }

/-! ## The loop of `broadcast`, key by key

The actions above take one iteration of `broadcast` as a whole.  Nothing in the
code orders the worker against the sessions (`h.clients` is a plain map, there
is no lock), so the same iteration is given here statement by statement, with
the other goroutines free to act in between. -/

/-- The worker between its dequeue and the end of the loop
`for clientChan := range h.clients`: the event it is fanning out; the keys that
were in the map when the loop was entered and that it has not reached yet
(`none`: the loop is not entered yet, the map has not been read); the keys the
loop has produced so far; and the key bound to `clientChan` whose `select` has
not run yet. -/
structure Fanning where
  sseMsg : SSEMessage
  todo : Option (List Nat)
  produced : List Nat
  clientChan : Option Nat
deriving DecidableEq, Repr

/-- Lines 100-108: dequeue, re-read, build the event; `none` while `h.notify` is
empty.  The map `h.clients` is not read yet. -/
def broadcast.enter (s : State) (db : DB) : Option (State × Fanning) :=
  match s.notify with
  | [] => none
  | message :: rest =>
    some ({ s with notify := rest, drained := s.drained ++ [message] },
      { sseMsg := sseMsg db message, todo := none, produced := [], clientChan := none })

/-- Line 111, the loop taking its next key, the first time reading the map as it
is then: a key deleted from the map before the loop reached it is not produced;
`none` when the loop is over. -/
def broadcast.next (s : State) (w : Fanning) : Option Fanning :=
  match (w.todo.getD s.clients).filter (fun c => c ∈ s.clients) with
  | [] => none
  | c :: rest => some { w with todo := some rest, produced := c :: w.produced, clientChan := some c }

/-- Line 111 again: Go may also produce, once, a key that was added to the map
after the loop was entered; `none` when `c` is not such a key. -/
def broadcast.late (s : State) (w : Fanning) (c : Nat) : Option Fanning :=
  match w.todo with
  | none => none
  | some l =>
    if c ∈ s.clients ∧ c ∉ l ∧ c ∉ w.produced then
      some { w with produced := c :: w.produced, clientChan := some c }
    else none

/-- Lines 112-116, the `select` on the key bound to `clientChan`. -/
def broadcast.send (s : State) (w : Fanning) (c : Nat) : Except Panic (State × Fanning) :=
  match (s.chans c).trySend w.sseMsg with
  | .error p => .error p
  | .ok ch => .ok ({ s with chans := Function.update s.chans c ch }, { w with clientChan := none })

/-- What one of the goroutines does next, the worker going statement by
statement. -/
inductive Move where
  /-- An action as before; `broadcast db` is the worker's dequeue and re-read. -/
  | act (a : Action)
  /-- The worker's loop takes its next key, or ends. -/
  | next
  /-- The worker runs the `select` on the key it holds. -/
  | send
  /-- The worker's loop produces the key `c`, added since the loop was entered. -/
  | late (c : Nat)
deriving DecidableEq, Repr

/-- One move on the state and the worker (`none`: the worker waits at line 100).
A move that is not enabled leaves everything as it is. -/
def fineStep (s : State) (w : Option Fanning) : Move → Except Panic (State × Option Fanning)
  | .act (.broadcast db) =>
    match w with
    | some _ => .ok (s, w)
    | none =>
      match broadcast.enter s db with
      | none => .ok (s, none)
      | some (s1, w1) => .ok (s1, some w1)
  | .act a =>
    match step s a with
    | .error p => .error p
    | .ok s1 => .ok (s1, w)
  | .next =>
    match w with
    | none => .ok (s, none)
    | some w0 =>
      match w0.clientChan with
      | some _ => .ok (s, w)
      | none => .ok (s, broadcast.next s w0)
  | .send =>
    match w with
    | none => .ok (s, none)
    | some w0 =>
      match w0.clientChan with
      | none => .ok (s, w)
      | some c =>
        match broadcast.send s w0 c with
        | .error p => .error p
        | .ok (s1, w1) => .ok (s1, some w1)
  | .late c =>
    match w with
    | none => .ok (s, none)
    | some w0 =>
      match w0.clientChan with
      | some _ => .ok (s, w)
      | none =>
        match broadcast.late s w0 c with
        | none => .ok (s, w)
        | some w1 => .ok (s, some w1)

/-- A sequence of moves, stopping at the first panic. -/
def fineRun : State → Option Fanning → List Move → Except Panic (State × Option Fanning)
  | s, w, [] => .ok (s, w)
  | s, w, m :: rest =>
    match fineStep s w m with
    | .error p => .error p
    | .ok (s1, w1) => fineRun s1 w1 rest

/-- The moves of a loop over `n` keys that nobody interrupts. -/
def sweep : Nat → List Move
  | 0 => [.next]
  | n + 1 => .next :: .send :: sweep n

/-- The dequeued messages whose fan-out is over: all of them while the worker
waits at line 100, all but the last while it is fanning that one out. -/
def settled (s : State) (w : Option Fanning) : List Message :=
  match w with
  | none => s.drained
  | some _ => s.drained.dropLast

/-- What holds of the worker while it is fanning a message out: the event it holds
was built from the message dequeued last; the keys the loop has still to reach
are distinct and not produced yet; before the loop is entered nothing is
produced; the keys produced are allocated channels; the key bound to
`clientChan` has been produced. -/
def WorkerOK (s : State) (w : Option Fanning) : Prop :=
  ∀ f, w = some f →
    (∃ init m, s.drained = init ++ [m] ∧ Built f.sseMsg m) ∧
    (∀ l, f.todo = some l → l.Nodup ∧ ∀ k ∈ l, k ∉ f.produced) ∧
    (f.todo = none → f.produced = []) ∧
    (∀ k ∈ f.produced, k < s.next) ∧
    (∀ k, f.clientChan = some k → k ∈ f.produced)

/-- For a channel `b` and the messages `old`: the worker has dequeued `old`
followed by some messages `e`, what was placed on `b` are events built, in
order, from a subsequence of `e`, and while the worker is fanning out the last
message of `e` without having served `b` yet, from a subsequence of the
others. -/
def NoReplay (b : Nat) (old : List Message) (s : State) (w : Option Fanning) : Prop :=
  ∃ e sub, s.drained = old ++ e ∧ List.Forall₂ Built (s.chans b).placed sub ∧ sub.Sublist e ∧
    ∀ f, w = some f →
      e ≠ [] ∧ ((b ∉ f.produced ∨ f.clientChan = some b) → sub.Sublist e.dropLast)

/-! ## health_handler.go and the `CreateMessage` handler of message_handler.go -/

/-- The body of a JSON response: a `gin.H` whose values are strings, the body
`gin.H{"error": err.Error()}` of a binding error (the text of that error is not
modelled), or a message. -/
inductive Body where
  | obj (fields : List (String × String))
  | bindError
  | message (m : Message)
deriving DecidableEq, Repr

/-- The value of a key of a `gin.H` body. -/
def Body.field (b : Body) (key : String) : Option String :=
  match b with
  | .obj fields => (fields.find? (fun kv => kv.1 == key)).map Prod.snd
  | _ => none

/-- The call `c.JSON(status, body)`. -/
structure Response where
  status : Nat
  body : Body
deriving DecidableEq, Repr

/-- The `*sql.DB` of the store: whether its `Ping()` returns no error. -/
structure SqlDB where
  ping : Bool
deriving DecidableEq, Repr

/-- A non-nil `*gorm.DB`: what its `DB()` returns, `none` standing for an
error. -/
structure GormDB where
  sqlDB : Option SqlDB
deriving DecidableEq, Repr

/-- The method `HealthCheck`, on the value of the global `database.DB` (`none`:
nil). -/
def HealthHandler.HealthCheck (conn : Option GormDB) : Response :=
  match conn with
  | none =>
    ⟨503, .obj [("status", "unhealthy"), ("message", "Database connection not established")]⟩
  | some g =>
    match g.sqlDB with
    | none =>
      ⟨503, .obj [("status", "unhealthy"), ("message", "Failed to get database instance")]⟩
    | some sqlDB =>
      if sqlDB.ping then
        ⟨200, .obj [("status", "healthy"), ("message", "Service is operational")]⟩
      else ⟨503, .obj [("status", "unhealthy"), ("message", "Database ping failed")]⟩

/-- What a request served by the router of `SetupRouter` can see of the process:
the hub built there and the global `database.DB`. -/
structure Server where
  sseHandler : State
  conn : Option GormDB

/-- The route `GET /api/v1/healthcheck`: the response and the process
afterwards. -/
def Server.healthcheck (w : Server) : Response × Server :=
  (HealthHandler.HealthCheck w.conn, w)

/-- The struct `models.CreateMessageRequest`. -/
structure CreateMessageRequest where
  User : String
  Content : String
  GroupID : Nat
deriving DecidableEq, Repr

/-- The call `c.ShouldBindJSON(&req)`, on the decoded body (`none`: the body does
not decode): the tags `binding:"required"` reject an empty `User` or
`Content`. -/
def ShouldBindJSON (decoded : Option CreateMessageRequest) : Option CreateMessageRequest :=
  match decoded with
  | none => none
  | some req => if req.User = "" ∨ req.Content = "" then none else some req

/-- What a `First` query returns: a row, `gorm.ErrRecordNotFound`, or another
error. -/
inductive Found (α : Type) where
  | row (a : α)
  | notFound
  | failed
deriving DecidableEq, Repr

/-- The outcome, on a store, of a `First` query that matches `hit` in its rows:
another error when the store is out of reach. -/
def DB.query {α : Type} (db : DB) (hit : Option α) : Found α :=
  if db.down then .failed
  else
    match hit with
    | some a => .row a
    | none => .notFound

/-- The store as one query meets it, `ok` telling whether this query gets
through. -/
def DB.reached (db : DB) (ok : Bool) : DB :=
  { db with down := db.down || !ok }

/-- The rows matched by `Where("name = ?", name).First(&group)`. -/
def DB.groupNamed (db : DB) (name : String) : Option Group :=
  db.groups.find? (fun g => g.Name == name)

/-- The rows matched by `First(&group, id)`. -/
def DB.groupByID (db : DB) (id : Nat) : Option Group :=
  db.groups.find? (fun g => g.ID == id)

/-- A successful `Create(&message)` at time `now`, for a message without key:
the primary key `key` that the store assigned and the two timestamps are filled
in, in `message` and in the new row. -/
def DB.Create (db : DB) (message : Message) (key : Nat) (now : Time) : Message × DB :=
  let row := { message with ID := key, CreatedAt := now, UpdatedAt := now }
  (row, { db with messages := db.messages ++ [row] })

/-- What the store does with the calls of one `CreateMessage` request, each as
far as the handler reaches it: whether the query for the default group (line
36), the query for the group (line 45) and the re-read (line 66) get through,
and the outcome of the insert (line 60): an error, or the primary key assigned
and the time. -/
structure Outcomes where
  defaultGroup : Bool
  group : Bool
  insert : Option (Nat × Time)
  reload : Bool
deriving DecidableEq, Repr

/-- The method `CreateMessage`.  `sseHandler` is the field of the handler (`none`:
nil, as in the tests), `db` the store, `decoded` the decoded request body and
`env` what the store does with the calls of this request.  The result is the
response, the store and the hub afterwards. -/
def MessageHandler.CreateMessage (sseHandler : Option State) (db : DB)
    (decoded : Option CreateMessageRequest) (env : Outcomes) :
    Response × DB × Option State :=
  match ShouldBindJSON decoded with
  | none => (⟨400, .bindError⟩, db, sseHandler)
  | some req =>
    let groupID : Option Nat :=
      if req.GroupID = 0 then
        match (db.reached env.defaultGroup).query (db.groupNamed "SRE Bootcamp") with
        | .row defaultGroup => some defaultGroup.ID
        | _ => none
      else some req.GroupID
    match groupID with
    | none => (⟨500, .obj [("error", "Default group not found")]⟩, db, sseHandler)
    | some groupID =>
      match (db.reached env.group).query (db.groupByID groupID) with
      | .notFound => (⟨404, .obj [("error", "Group not found")]⟩, db, sseHandler)
      | .failed => (⟨500, .obj [("error", "Database error")]⟩, db, sseHandler)
      | .row _ =>
        match env.insert with
        | none => (⟨500, .obj [("error", "Failed to create message")]⟩, db, sseHandler)
        | some (key, now) =>
          let created := db.Create
            { Message.zero with GroupID := groupID, User := req.User, Content := req.Content }
            key now
          let message := (created.2.reached env.reload).First created.1
          (⟨201, .message message⟩, created.2,
            sseHandler.map (fun h => NotifyNewMessage h message))

/-! ## Concrete data for the examples, continued -/

/-- The request of `TestCreateMessage`: no `group_id`. -/
def testRequest : CreateMessageRequest :=
  { User := "testuser", Content := "Hello, SRE Bootcamp!", GroupID := 0 }

/-- The store of the tests: the default group, message 1. -/
def seededStore : DB :=
  { messages := [hi], groups := [hi.Group] }

/-- A request for which the store lets every call through and assigns key 2. -/
def allThrough : Outcomes :=
  { defaultGroup := true, group := true, insert := some (2, ⟨"2024-02-02T00:00:00Z"⟩),
    reload := true }

/-! ## Lemmas on the store -/

theorem preloadGroup_columns (db : DB) (m : Message) :
    (db.preloadGroup m).ID = m.ID ∧ (db.preloadGroup m).GroupID = m.GroupID ∧
    (db.preloadGroup m).User = m.User ∧ (db.preloadGroup m).Content = m.Content ∧
    (db.preloadGroup m).CreatedAt = m.CreatedAt ∧ (db.preloadGroup m).UpdatedAt = m.UpdatedAt := by
  unfold DB.preloadGroup
  split <;> simp

theorem First_down (db : DB) (m : Message) (h : db.down = true) : db.First m = m := by
  simp [DB.First, h]

theorem First_none (db : DB) (m : Message)
    (h : db.messages.find? (fun r => r.ID == m.ID && r.DeletedAt.isNone) = none) :
    db.First m = m := by
  unfold DB.First
  split
  · rfl
  · rw [h]

theorem First_found (db : DB) (m r : Message) (hup : db.down = false)
    (h : db.messages.find? (fun r => r.ID == m.ID && r.DeletedAt.isNone) = some r) :
    db.First m = db.preloadGroup { r with Group := m.Group } := by
  unfold DB.First
  rw [h]
  simp [hup]

theorem First_ID (db : DB) (m : Message) : (db.First m).ID = m.ID := by
  by_cases hd : db.down = true
  · rw [First_down db m hd]
  · cases hf : db.messages.find? (fun r => r.ID == m.ID && r.DeletedAt.isNone) with
    | none => rw [First_none db m hf]
    | some r =>
      rw [First_found db m r (by simpa using hd) hf, (preloadGroup_columns db _).1]
      have := List.find?_some hf
      simp only [Bool.and_eq_true, beq_iff_eq] at this
      exact this.1

theorem First_absent (db : DB) (m : Message)
    (h : ∀ r ∈ db.messages, r.ID = m.ID → r.DeletedAt ≠ none) : db.First m = m := by
  cases hf : db.messages.find? (fun r => r.ID == m.ID && r.DeletedAt.isNone) with
  | none => exact First_none db m hf
  | some r =>
    exfalso
    have hmem := List.mem_of_find?_eq_some hf
    have := List.find?_some hf
    simp only [Bool.and_eq_true, beq_iff_eq, Option.isNone_iff_eq_none] at this
    exact h r hmem this.1 this.2

/-! ## Lemmas on the fan-out loop -/

theorem trySend_open (ch : Chan) (x : SSEMessage) (h : ch.closed = false) :
    ch.trySend x = .ok (ch.offer x) := by
  unfold Chan.trySend Chan.offer
  by_cases hlen : ch.buf.length < ch.cap <;> simp [h, hlen]

theorem offer_closed (ch : Chan) (x : SSEMessage) : (ch.offer x).closed = ch.closed := by
  unfold Chan.offer
  split <;> rfl

theorem offer_cap (ch : Chan) (x : SSEMessage) : (ch.offer x).cap = ch.cap := by
  unfold Chan.offer
  split <;> rfl

theorem offer_taken (ch : Chan) (x : SSEMessage) : (ch.offer x).taken = ch.taken := by
  unfold Chan.offer
  split <;> rfl

theorem offer_len (ch : Chan) (x : SSEMessage) (h : ch.buf.length ≤ ch.cap) :
    (ch.offer x).buf.length ≤ ch.cap := by
  unfold Chan.offer
  split
  · simp only [List.length_append, List.length_singleton]; omega
  · exact h

theorem fanOut_spec (ev : SSEMessage) :
    ∀ (l : List Nat) (chans : Nat → Chan), l.Nodup →
      (∀ c ∈ l, (chans c).closed = false) →
      ∃ chans1, fanOut ev l chans = .ok chans1 ∧
        (∀ c, c ∉ l → chans1 c = chans c) ∧
        (∀ c ∈ l, chans1 c = (chans c).offer ev) := by
  intro l
  induction l with
  | nil => intro chans _ _; exact ⟨chans, rfl, fun _ _ => rfl, by simp⟩
  | cons a rest ih =>
    intro chans hnd hopen
    have ha : (chans a).closed = false := hopen a (by simp)
    obtain ⟨hna, hnd1⟩ := List.nodup_cons.mp hnd
    have hopen1 : ∀ c ∈ rest,
        ((Function.update chans a ((chans a).offer ev)) c).closed = false := by
      intro c hc
      have hca : c ≠ a := fun h => hna (h ▸ hc)
      rw [Function.update_noteq hca]
      exact hopen c (List.mem_cons_of_mem _ hc)
    obtain ⟨chans1, hrun, hout, hin⟩ := ih _ hnd1 hopen1
    refine ⟨chans1, ?_, ?_, ?_⟩
    · simp only [fanOut, trySend_open _ _ ha]
      exact hrun
    · intro c hc
      have hca : c ≠ a := fun h => hc (h ▸ List.mem_cons_self _ _)
      have hcr : c ∉ rest := fun h => hc (List.mem_cons_of_mem _ h)
      rw [hout c hcr, Function.update_noteq hca]
    · intro c hc
      rcases List.mem_cons.mp hc with h | h
      · subst h
        rw [hout c hna, Function.update_same]
      · have hca : c ≠ a := fun h1 => hna (h1 ▸ h)
        rw [hin c h, Function.update_noteq hca]

/-- The order in which the `range` loop visits the keys does not matter. -/
theorem fanOut_order (ev : SSEMessage) (l l1 : List Nat) (chans : Nat → Chan)
    (hperm : l.Perm l1) (hnd : l.Nodup) (hopen : ∀ c ∈ l, (chans c).closed = false) :
    fanOut ev l chans = fanOut ev l1 chans := by
  obtain ⟨f, hf, hout, hin⟩ := fanOut_spec ev l chans hnd hopen
  obtain ⟨g, hg, hout1, hin1⟩ := fanOut_spec ev l1 chans (hperm.nodup_iff.mp hnd)
    (fun c hc => hopen c (hperm.mem_iff.mpr hc))
  rw [hf, hg]
  congr 1
  funext c
  by_cases hc : c ∈ l
  · rw [hin c hc, hin1 c (hperm.mem_iff.mp hc)]
  · rw [hout c hc, hout1 c (fun h => hc (hperm.mem_iff.mpr h))]

theorem broadcast_spec (s : State) (db : DB) (m : Message) (rest : List Message)
    (hq : s.notify = m :: rest) (hnd : s.clients.Nodup)
    (hopen : ∀ c ∈ s.clients, (s.chans c).closed = false) :
    ∃ chans1, broadcast s db =
        .ok { s with notify := rest, drained := s.drained ++ [m], chans := chans1 } ∧
      (∀ c, c ∉ s.clients → chans1 c = s.chans c) ∧
      (∀ c ∈ s.clients, chans1 c = (s.chans c).offer (sseMsg db m)) := by
  obtain ⟨chans1, hrun, hout, hin⟩ := fanOut_spec (sseMsg db m) s.clients s.chans hnd hopen
  refine ⟨chans1, ?_, hout, hin⟩
  unfold broadcast
  rw [hq]
  simp only [hrun]

/-! ## Lemmas on the session -/

/-- The state a `return` from the loop leaves, in one piece. -/
theorem ret_spec (s : State) (c : Nat) (hopen : (s.chans c).closed = false) :
    StreamMessages.ret s c = .ok
      { s with
        clients := s.clients.filter fun k => k != c
        chans := Function.update s.chans c { s.chans c with closed := true }
        sess := Function.update s.sess c
          { phase := .returned, out := (s.sess c).out, tickerRunning := false,
            cleanups := (s.sess c).cleanups + 1 } } := by
  simp [StreamMessages.ret, StreamMessages.cleanup, deleteClient, Chan.close, hopen]

/-! ## The invariant holds after every run -/

theorem invariant_init : Invariant NewSSEHandler := by
  refine ⟨?_, ?_, ?_, ?_, ?_, ?_, ?_⟩ <;> simp [NewSSEHandler, Session.idle, Chan.make]

theorem invariant_notify (s : State) (m : Message) (h : Invariant s) :
    Invariant (NotifyNewMessage s m) := by
  unfold NotifyNewMessage
  split
  · next hlen =>
    refine ⟨h.nodup, h.registered, h.looping, h.finished, h.unused, h.caps, ?_, h.bounded.2⟩
    simp only [List.length_append, List.length_singleton]
    omega
  · exact h

theorem invariant_broadcast (s : State) (db : DB) (h : Invariant s) :
    ∃ s1, broadcast s db = .ok s1 ∧ Invariant s1 := by
  cases hq : s.notify with
  | nil => exact ⟨s, by simp [broadcast, hq], h⟩
  | cons m rest =>
    obtain ⟨chans1, hrun, hout, hin⟩ :=
      broadcast_spec s db m rest hq h.nodup (fun c hc => (h.registered c hc).2.1)
    have hcases : ∀ c, chans1 c = s.chans c ∨ chans1 c = (s.chans c).offer (sseMsg db m) := by
      intro c
      by_cases hc : c ∈ s.clients
      · exact Or.inr (hin c hc)
      · exact Or.inl (hout c hc)
    have hclosed : ∀ c, (chans1 c).closed = (s.chans c).closed := by
      intro c
      rcases hcases c with e | e <;> rw [e]
      exact offer_closed _ _
    have hlen : s.notify.length ≤ 100 := h.bounded.1
    rw [hq] at hlen
    refine ⟨_, hrun, h.nodup, ?_, h.looping, ?_, ?_, ?_, ?_, ?_⟩
    · intro c hc
      obtain ⟨h1, h2, h3⟩ := h.registered c hc
      exact ⟨h1, (hclosed c).trans h2, h3⟩
    · intro c hc
      obtain ⟨h1, h2, h3⟩ := h.finished c hc
      exact ⟨(hclosed c).trans h1, h2, h3⟩
    · intro c hc
      have hc : s.next ≤ c := hc
      obtain ⟨h1, h2⟩ := h.unused c hc
      refine ⟨h1, ?_⟩
      have hnot : c ∉ s.clients := fun hmem => by
        have := (h.registered c hmem).1
        omega
      show chans1 c = Chan.make 10
      rw [hout c hnot]
      exact h2
    · intro c
      show (chans1 c).cap = 10
      rcases hcases c with e | e <;> rw [e]
      · exact h.caps c
      · rw [offer_cap]; exact h.caps c
    · show rest.length ≤ 100
      simp only [List.length_cons] at hlen
      omega
    · intro c
      show (chans1 c).buf.length ≤ 10
      rcases hcases c with e | e <;> rw [e]
      · exact h.bounded.2 c
      · have := offer_len (s.chans c) (sseMsg db m) (by rw [h.caps c]; exact h.bounded.2 c)
        rw [h.caps c] at this
        exact this

theorem next_not_registered (s : State) (h : Invariant s) : s.next ∉ s.clients := by
  intro hmem
  have := (h.registered s.next hmem).1
  omega

theorem start_clients (s : State) (ok : Bool) (h : Invariant s) :
    (StreamMessages.start s ok).clients = s.clients ++ [s.next] := by
  simp [StreamMessages.start, next_not_registered s h]

theorem invariant_start (s : State) (ok : Bool) (h : Invariant s) :
    Invariant (StreamMessages.start s ok) := by
  have hfresh := next_not_registered s h
  have hcl := start_clients s ok h
  have hchans : ∀ c, c ≠ s.next → (StreamMessages.start s ok).chans c = s.chans c := by
    intro c hc
    simp [StreamMessages.start, Function.update_noteq hc]
  have hsess : ∀ c, c ≠ s.next → (StreamMessages.start s ok).sess c = s.sess c := by
    intro c hc
    simp [StreamMessages.start, Function.update_noteq hc]
  have hchan0 : (StreamMessages.start s ok).chans s.next = Chan.make 10 := by
    simp [StreamMessages.start]
  have hsess0 : (StreamMessages.start s ok).sess s.next =
      { phase := .streaming, out := [sendSSE ⟨"connected", Message.zero⟩ ok],
        tickerRunning := true, cleanups := 0 } := by
    simp [StreamMessages.start]
  have hnext : (StreamMessages.start s ok).next = s.next + 1 := rfl
  refine ⟨?_, ?_, ?_, ?_, ?_, ?_, ?_, ?_⟩
  · rw [hcl]
    exact List.Nodup.append h.nodup (List.nodup_singleton _) (by simpa using hfresh)
  · intro c hc
    rw [hcl] at hc
    rw [hnext]
    by_cases hcn : c = s.next
    · subst hcn
      rw [hchan0, hsess0]
      exact ⟨by omega, rfl, rfl⟩
    · have hmem : c ∈ s.clients := by simpa [hcn] using hc
      obtain ⟨h1, h2, h3⟩ := h.registered c hmem
      rw [hchans c hcn, hsess c hcn]
      exact ⟨by omega, h2, h3⟩
  · intro c hc
    rw [hcl]
    by_cases hcn : c = s.next
    · subst hcn
      rw [hsess0]
      exact ⟨by simp, rfl, rfl⟩
    · rw [hsess c hcn] at hc ⊢
      obtain ⟨h1, h2, h3⟩ := h.looping c hc
      exact ⟨by simp [h1], h2, h3⟩
  · intro c hc
    by_cases hcn : c = s.next
    · subst hcn
      rw [hsess0] at hc
      cases hc
    · rw [hsess c hcn] at hc ⊢
      rw [hchans c hcn]
      exact h.finished c hc
  · intro c hc
    rw [hnext] at hc
    have hcn : c ≠ s.next := by omega
    rw [hsess c hcn, hchans c hcn]
    exact h.unused c (by omega)
  · intro c
    by_cases hcn : c = s.next
    · subst hcn
      rw [hchan0]
      rfl
    · rw [hchans c hcn]
      exact h.caps c
  · exact h.bounded.1
  · intro c
    by_cases hcn : c = s.next
    · subst hcn
      rw [hchan0]
      simp [Chan.make]
    · rw [hchans c hcn]
      exact h.bounded.2 c

theorem streaming_lt (s : State) (c : Nat) (h : Invariant s)
    (hp : (s.sess c).phase = .streaming) : c < s.next :=
  (h.registered c (h.looping c hp).1).1

theorem invariant_logWrite (s : State) (c : Nat) (w : Write) (h : Invariant s)
    (hp : (s.sess c).phase = .streaming) : Invariant (logWrite s c w) := by
  have hsess : ∀ k, ((logWrite s c w).sess k).phase = (s.sess k).phase ∧
      ((logWrite s c w).sess k).cleanups = (s.sess k).cleanups ∧
      ((logWrite s c w).sess k).tickerRunning = (s.sess k).tickerRunning := by
    intro k
    by_cases hk : k = c
    · subst hk
      simp [logWrite]
    · simp [logWrite, Function.update_noteq hk]
  refine ⟨h.nodup, ?_, ?_, ?_, ?_, h.caps, h.bounded⟩
  · intro k hk
    obtain ⟨h1, h2, h3⟩ := h.registered k hk
    exact ⟨h1, h2, (hsess k).1.trans h3⟩
  · intro k hk
    obtain ⟨e1, e2, e3⟩ := hsess k
    rw [e1] at hk
    rw [e2, e3]
    exact h.looping k hk
  · intro k hk
    obtain ⟨e1, e2, e3⟩ := hsess k
    rw [e1] at hk
    rw [e2, e3]
    exact h.finished k hk
  · intro k hk
    have hk : s.next ≤ k := hk
    obtain ⟨h1, h2⟩ := h.unused k hk
    refine ⟨?_, h2⟩
    have hkc : k ≠ c := by
      have := streaming_lt s c h hp
      omega
    simp [logWrite, Function.update_noteq hkc, h1]

theorem invariant_take (s : State) (c : Nat) (x : SSEMessage) (rest : List SSEMessage)
    (h : Invariant s) (hp : (s.sess c).phase = .streaming) (hb : (s.chans c).buf = x :: rest) :
    Invariant { s with chans := (Function.update s.chans c
      { s.chans c with taken := (s.chans c).taken ++ [x], buf := rest }) } := by
  have hlt := streaming_lt s c h hp
  have hch : ∀ k, ((Function.update s.chans c
      { s.chans c with taken := (s.chans c).taken ++ [x], buf := rest }) k).closed
        = (s.chans k).closed ∧
      ((Function.update s.chans c
      { s.chans c with taken := (s.chans c).taken ++ [x], buf := rest }) k).cap
        = (s.chans k).cap ∧
      ((Function.update s.chans c
      { s.chans c with taken := (s.chans c).taken ++ [x], buf := rest }) k).buf.length
        ≤ (s.chans k).buf.length := by
    intro k
    by_cases hk : k = c
    · subst hk
      simp [hb]
    · simp [Function.update_noteq hk]
  refine ⟨h.nodup, ?_, h.looping, ?_, ?_, ?_, h.bounded.1, ?_⟩
  · intro k hk
    obtain ⟨h1, h2, h3⟩ := h.registered k hk
    exact ⟨h1, (hch k).1.trans h2, h3⟩
  · intro k hk
    obtain ⟨h1, h2, h3⟩ := h.finished k hk
    exact ⟨(hch k).1.trans h1, h2, h3⟩
  · intro k hk
    have hk : s.next ≤ k := hk
    obtain ⟨h1, h2⟩ := h.unused k hk
    refine ⟨h1, ?_⟩
    have hkc : k ≠ c := by omega
    simp [Function.update_noteq hkc, h2]
  · intro k
    exact (hch k).2.1.trans (h.caps k)
  · intro k
    exact le_trans (hch k).2.2 (h.bounded.2 k)

theorem invariant_ret (s : State) (c : Nat) (h : Invariant s)
    (hp : (s.sess c).phase = .streaming) :
    ∃ s1, StreamMessages.ret s c = .ok s1 ∧ Invariant s1 ∧
      s1.clients = s.clients.filter (fun k => k != c) ∧
      (s1.sess c).phase = .returned ∧
      s1.notify = s.notify ∧ s1.drained = s.drained ∧ s1.next = s.next ∧
      (s1.chans c).placed = (s.chans c).placed ∧
      (∀ k, k ≠ c → s1.chans k = s.chans k ∧ s1.sess k = s.sess k) := by
  obtain ⟨hmem, hclean, htick⟩ := h.looping c hp
  obtain ⟨hlt, hopen, _⟩ := h.registered c hmem
  refine ⟨_, ret_spec s c hopen, ?_, rfl, by simp, rfl, rfl, rfl, by simp [Chan.placed], ?_⟩
  · refine ⟨?_, ?_, ?_, ?_, ?_, ?_, h.bounded.1, ?_⟩
    · exact List.Nodup.filter _ h.nodup
    · intro k hk
      have hk : k ∈ s.clients.filter (fun k => k != c) := hk
      obtain ⟨hk1, hk2⟩ := List.mem_filter.mp hk
      have hkc : k ≠ c := by simpa using hk2
      obtain ⟨h1, h2, h3⟩ := h.registered k hk1
      simp only [Function.update_noteq hkc]
      exact ⟨h1, h2, h3⟩
    · intro k hk
      by_cases hkc : k = c
      · subst hkc
        simp at hk
      · simp only [Function.update_noteq hkc] at hk ⊢
        obtain ⟨h1, h2, h3⟩ := h.looping k hk
        exact ⟨List.mem_filter.mpr ⟨h1, by simpa using hkc⟩, h2, h3⟩
    · intro k hk
      by_cases hkc : k = c
      · subst hkc
        simp [hclean]
      · simp only [Function.update_noteq hkc] at hk ⊢
        exact h.finished k hk
    · intro k hk
      have hk : s.next ≤ k := hk
      have hkc : k ≠ c := by omega
      simp only [Function.update_noteq hkc]
      exact h.unused k hk
    · intro k
      by_cases hkc : k = c
      · subst hkc
        simpa using h.caps k
      · simp only [Function.update_noteq hkc]
        exact h.caps k
    · intro k
      by_cases hkc : k = c
      · subst hkc
        simpa using h.bounded.2 k
      · simp only [Function.update_noteq hkc]
        exact h.bounded.2 k
  · intro k hkc
    simp [Function.update_noteq hkc]

/-! ## Lemmas on runs -/

/-- An event built from `m` is a "message" event carrying a message with the id
of `m`. -/
theorem built_id (ev : SSEMessage) (m : Message) (h : Built ev m) :
    ev.Type_ = "message" ∧ ev.Message.ID = m.ID := by
  obtain ⟨db, rfl⟩ := h
  exact ⟨rfl, First_ID db m⟩

theorem grows_quiet (s s1 : State) (hd : s1.drained = s.drained)
    (hp : ∀ c, (s1.chans c).placed = (s.chans c).placed) : Grows s s1 [] :=
  ⟨by simp [hd], fun c => ⟨[], [], by simp [hp c], List.Sublist.refl _, List.Forall₂.nil⟩⟩

theorem grows_trans (s s1 s2 : State) (d1 d2 : List Message)
    (h1 : Grows s s1 d1) (h2 : Grows s1 s2 d2) : Grows s s2 (d1 ++ d2) := by
  refine ⟨by rw [h2.1, h1.1, List.append_assoc], fun c => ?_⟩
  obtain ⟨e1, b1, p1, q1, r1⟩ := h1.2 c
  obtain ⟨e2, b2, p2, q2, r2⟩ := h2.2 c
  refine ⟨e1 ++ e2, b1 ++ b2, by rw [p2, p1, List.append_assoc], List.Sublist.append q1 q2, ?_⟩
  exact List.rel_append r1 r2

theorem onDone_streaming (s : State) (c : Nat) (hp : (s.sess c).phase = .streaming) :
    StreamMessages.onDone s c = StreamMessages.ret s c := by
  simp [StreamMessages.onDone, hp]

theorem onTick_streaming (s : State) (c : Nat) (ok : Bool)
    (hp : (s.sess c).phase = .streaming) :
    StreamMessages.onTick s c ok =
      if ok then .ok (logWrite s c (sendSSE ⟨"ping", Message.zero⟩ ok))
      else StreamMessages.ret (logWrite s c (sendSSE ⟨"ping", Message.zero⟩ ok)) c := by
  simp [StreamMessages.onTick, hp]

theorem onMessage_streaming (s : State) (c : Nat) (ok : Bool) (x : SSEMessage)
    (rest : List SSEMessage) (hp : (s.sess c).phase = .streaming)
    (hb : (s.chans c).buf = x :: rest) :
    StreamMessages.onMessage s c ok =
      if ok then .ok (logWrite { s with chans := (Function.update s.chans c
        { s.chans c with taken := (s.chans c).taken ++ [x], buf := rest }) } c (sendSSE x ok))
      else StreamMessages.ret (logWrite { s with chans := (Function.update s.chans c
        { s.chans c with taken := (s.chans c).taken ++ [x], buf := rest }) } c (sendSSE x ok)) c := by
  simp [StreamMessages.onMessage, hp, Chan.recv, hb]

theorem onMessage_empty (s : State) (c : Nat) (ok : Bool)
    (hopen : (s.chans c).closed = false) (hb : (s.chans c).buf = []) :
    StreamMessages.onMessage s c ok = .ok s := by
  simp [StreamMessages.onMessage, Chan.recv, hb, hopen]

theorem logWrite_phase (s : State) (c : Nat) (w : Write) :
    ((logWrite s c w).sess c).phase = (s.sess c).phase := by
  simp [logWrite]

theorem take_placed (s : State) (c : Nat) (x : SSEMessage) (rest : List SSEMessage)
    (hb : (s.chans c).buf = x :: rest) (k : Nat) :
    ((Function.update s.chans c
      { s.chans c with taken := (s.chans c).taken ++ [x], buf := rest }) k).placed
      = (s.chans k).placed := by
  by_cases hk : k = c
  · subst hk
    simp [Chan.placed, hb]
  · simp [Function.update_noteq hk]

theorem ret_quiet (s : State) (c : Nat) (h : Invariant s)
    (hp : (s.sess c).phase = .streaming) :
    ∃ s1, StreamMessages.ret s c = .ok s1 ∧ Invariant s1 ∧ s1.drained = s.drained ∧
      s1.notify = s.notify ∧ (∀ k, (s1.chans k).placed = (s.chans k).placed) ∧
      (∀ k, k ≠ c → s1.chans k = s.chans k ∧ s1.sess k = s.sess k) := by
  obtain ⟨s1, hrun, hinv, _, _, hn, hd, _, hpc, hrest⟩ := invariant_ret s c h hp
  refine ⟨s1, hrun, hinv, hd, hn, fun k => ?_, hrest⟩
  by_cases hk : k = c
  · subst hk
    exact hpc
  · rw [(hrest k hk).1]

theorem logWrite_frame (s : State) (c : Nat) (w : Write) (k : Nat) (hk : k ≠ c) :
    (logWrite s c w).chans k = s.chans k ∧ (logWrite s c w).sess k = s.sess k := by
  simp [logWrite, Function.update_noteq hk]

theorem onDone_spec (s : State) (c : Nat) (h : Invariant s) :
    ∃ s1, StreamMessages.onDone s c = .ok s1 ∧ Invariant s1 ∧ s1.drained = s.drained ∧
      s1.notify = s.notify ∧ (∀ k, (s1.chans k).placed = (s.chans k).placed) ∧
      (∀ k, k ≠ c → s1.chans k = s.chans k ∧ s1.sess k = s.sess k) ∧
      ((s.sess c).phase ≠ .streaming → s1 = s) := by
  by_cases hp : (s.sess c).phase = .streaming
  · rw [onDone_streaming s c hp]
    obtain ⟨s1, h1, h2, h3, h4, h5, h6⟩ := ret_quiet s c h hp
    exact ⟨s1, h1, h2, h3, h4, h5, h6, fun hn => absurd hp hn⟩
  · exact ⟨s, by simp [StreamMessages.onDone, hp], h, rfl, rfl, fun _ => rfl,
      fun _ _ => ⟨rfl, rfl⟩, fun _ => rfl⟩

theorem onTick_spec (s : State) (c : Nat) (ok : Bool) (h : Invariant s) :
    ∃ s1, StreamMessages.onTick s c ok = .ok s1 ∧ Invariant s1 ∧ s1.drained = s.drained ∧
      s1.notify = s.notify ∧ (∀ k, (s1.chans k).placed = (s.chans k).placed) ∧
      (∀ k, k ≠ c → s1.chans k = s.chans k ∧ s1.sess k = s.sess k) ∧
      ((s.sess c).phase ≠ .streaming → s1 = s) := by
  by_cases hp : (s.sess c).phase = .streaming
  · rw [onTick_streaming s c ok hp]
    have hinv := invariant_logWrite s c (sendSSE ⟨"ping", Message.zero⟩ ok) h hp
    cases ok with
    | true =>
      exact ⟨_, rfl, hinv, rfl, rfl, fun _ => rfl, fun k hk => logWrite_frame s c _ k hk,
        fun hn => absurd hp hn⟩
    | false =>
      have hp1 := (logWrite_phase s c (sendSSE ⟨"ping", Message.zero⟩ false)).trans hp
      obtain ⟨s1, hrun, hinv1, hd, hn, hpl, hfr⟩ := ret_quiet _ c hinv hp1
      refine ⟨s1, by simpa using hrun, hinv1, hd, hn, hpl, fun k hk => ?_, fun hn => absurd hp hn⟩
      obtain ⟨e1, e2⟩ := hfr k hk
      obtain ⟨f1, f2⟩ := logWrite_frame s c (sendSSE ⟨"ping", Message.zero⟩ false) k hk
      exact ⟨e1.trans f1, e2.trans f2⟩
  · exact ⟨s, by simp [StreamMessages.onTick, hp], h, rfl, rfl, fun _ => rfl,
      fun _ _ => ⟨rfl, rfl⟩, fun _ => rfl⟩

theorem onMessage_spec (s : State) (c : Nat) (ok : Bool) (h : Invariant s) :
    ∃ s1, StreamMessages.onMessage s c ok = .ok s1 ∧ Invariant s1 ∧ s1.drained = s.drained ∧
      s1.notify = s.notify ∧ (∀ k, (s1.chans k).placed = (s.chans k).placed) ∧
      (∀ k, k ≠ c → s1.chans k = s.chans k ∧ s1.sess k = s.sess k) ∧
      ((s.sess c).phase ≠ .streaming → s1 = s) := by
  by_cases hp : (s.sess c).phase = .streaming
  · have hopen := (h.registered c (h.looping c hp).1).2.1
    cases hb : (s.chans c).buf with
    | nil =>
      exact ⟨s, onMessage_empty s c ok hopen hb, h, rfl, rfl, fun _ => rfl,
        fun _ _ => ⟨rfl, rfl⟩, fun _ => rfl⟩
    | cons x rest =>
      rw [onMessage_streaming s c ok x rest hp hb]
      have hinv0 := invariant_take s c x rest h hp hb
      have hinv := invariant_logWrite _ c (sendSSE x ok) hinv0 hp
      have hpl := take_placed s c x rest hb
      have hfr0 : ∀ k, k ≠ c →
          (logWrite { s with chans := (Function.update s.chans c
            { s.chans c with taken := (s.chans c).taken ++ [x], buf := rest }) } c
            (sendSSE x ok)).chans k = s.chans k ∧
          (logWrite { s with chans := (Function.update s.chans c
            { s.chans c with taken := (s.chans c).taken ++ [x], buf := rest }) } c
            (sendSSE x ok)).sess k = s.sess k := by
        intro k hk
        simp [logWrite, Function.update_noteq hk]
      cases ok with
      | true => exact ⟨_, rfl, hinv, rfl, rfl, hpl, hfr0, fun hn => absurd hp hn⟩
      | false =>
        have hp1 := (logWrite_phase _ c (sendSSE x false)).trans hp
        obtain ⟨s1, hrun, hinv1, hd, hn, hpl1, hfr⟩ := ret_quiet _ c hinv hp1
        refine ⟨s1, by simpa using hrun, hinv1, hd, hn, fun k => (hpl1 k).trans (hpl k),
          fun k hk => ?_, fun hn => absurd hp hn⟩
        obtain ⟨e1, e2⟩ := hfr k hk
        obtain ⟨f1, f2⟩ := hfr0 k hk
        exact ⟨e1.trans f1, e2.trans f2⟩
  · exact ⟨s, by simp [StreamMessages.onMessage, hp], h, rfl, rfl, fun _ => rfl,
      fun _ _ => ⟨rfl, rfl⟩, fun _ => rfl⟩

theorem broadcast_grows (s : State) (db : DB) (h : Invariant s) :
    ∃ s1 d, broadcast s db = .ok s1 ∧ Invariant s1 ∧ Grows s s1 d ∧
      s1.drained ++ s1.notify = s.drained ++ s.notify := by
  obtain ⟨s1, hrun, hinv⟩ := invariant_broadcast s db h
  cases hq : s.notify with
  | nil =>
    have hs : s1 = s := by
      have : broadcast s db = .ok s := by simp [broadcast, hq]
      rw [this] at hrun
      cases hrun
      rfl
    subst hs
    exact ⟨s1, [], hrun, hinv, grows_quiet s1 s1 rfl (fun _ => rfl), by rw [hq]⟩
  | cons m rest =>
    obtain ⟨chans1, hrun1, hout, hin⟩ :=
      broadcast_spec s db m rest hq h.nodup (fun c hc => (h.registered c hc).2.1)
    refine ⟨_, [m], hrun1, ?_, ⟨rfl, fun c => ?_⟩, by simp⟩
    · rw [hrun1] at hrun
      cases hrun
      exact hinv
    · show ∃ evs sub, (chans1 c).placed = (s.chans c).placed ++ evs ∧ _
      by_cases hc : c ∈ s.clients
      · rw [hin c hc]
        unfold Chan.offer
        split
        · exact ⟨[sseMsg db m], [m], by simp [Chan.placed], List.Sublist.refl _,
            List.Forall₂.cons ⟨db, rfl⟩ List.Forall₂.nil⟩
        · exact ⟨[], [], by simp, List.nil_sublist _, List.Forall₂.nil⟩
      · rw [hout c hc]
        exact ⟨[], [], by simp, List.nil_sublist _, List.Forall₂.nil⟩

theorem start_placed (s : State) (ok : Bool) (h : Invariant s) (k : Nat) :
    ((StreamMessages.start s ok).chans k).placed = (s.chans k).placed := by
  by_cases hk : k = s.next
  · subst hk
    simp [StreamMessages.start, (h.unused s.next (le_refl _)).2]
  · simp [StreamMessages.start, Function.update_noteq hk]

theorem step_spec (s : State) (a : Action) (h : Invariant s) :
    ∃ s1 d, step s a = .ok s1 ∧ Invariant s1 ∧ Grows s s1 d ∧
      s1.drained ++ s1.notify = s.drained ++ s.notify ++ accepts s a := by
  cases a with
  | notify m =>
    refine ⟨_, [], rfl, invariant_notify s m h, grows_quiet _ _ ?_ ?_, ?_⟩
    · unfold NotifyNewMessage; split <;> rfl
    · intro c; unfold NotifyNewMessage; split <;> rfl
    · unfold NotifyNewMessage accepts
      split <;> simp
  | broadcast db =>
    obtain ⟨s1, d, hrun, hinv, hg, hacc⟩ := broadcast_grows s db h
    exact ⟨s1, d, hrun, hinv, hg, by simpa [accepts] using hacc⟩
  | connect ok =>
    exact ⟨_, [], rfl, invariant_start s ok h, grows_quiet _ _ rfl (start_placed s ok h),
      by simp [accepts, StreamMessages.start]⟩
  | recv c ok =>
    obtain ⟨s1, hrun, hinv, hd, hn, hpl, _⟩ := onMessage_spec s c ok h
    exact ⟨s1, [], hrun, hinv, grows_quiet _ _ hd hpl, by simp [accepts, hd, hn]⟩
  | tick c ok =>
    obtain ⟨s1, hrun, hinv, hd, hn, hpl, _⟩ := onTick_spec s c ok h
    exact ⟨s1, [], hrun, hinv, grows_quiet _ _ hd hpl, by simp [accepts, hd, hn]⟩
  | done c =>
    obtain ⟨s1, hrun, hinv, hd, hn, hpl, _⟩ := onDone_spec s c h
    exact ⟨s1, [], hrun, hinv, grows_quiet _ _ hd hpl, by simp [accepts, hd, hn]⟩

theorem run_spec (acts : List Action) :
    ∀ s, Invariant s → ∃ s1 d, run s acts = .ok s1 ∧ Invariant s1 ∧ Grows s s1 d ∧
      s1.drained ++ s1.notify = s.drained ++ s.notify ++ accepted s acts := by
  induction acts with
  | nil =>
    intro s h
    exact ⟨s, [], rfl, h, grows_quiet s s rfl (fun _ => rfl), by simp [accepted]⟩
  | cons a rest ih =>
    intro s h
    obtain ⟨s1, d1, hstep, hinv1, hg1, hacc1⟩ := step_spec s a h
    obtain ⟨s2, d2, hrun, hinv2, hg2, hacc2⟩ := ih s1 hinv1
    refine ⟨s2, d1 ++ d2, ?_, hinv2, grows_trans s s1 s2 d1 d2 hg1 hg2, ?_⟩
    · simp only [run, hstep]
      exact hrun
    · simp only [accepted, hstep]
      rw [hacc2, hacc1, List.append_assoc]

theorem run_append (pre post : List Action) :
    ∀ s s1, run s pre = .ok s1 → run s (pre ++ post) = run s1 post := by
  induction pre with
  | nil =>
    intro s s1 h
    cases h
    rfl
  | cons a rest ih =>
    intro s s1 h
    simp only [run, List.cons_append] at h ⊢
    cases hs : step s a with
    | error p => rw [hs] at h; cases h
    | ok s2 =>
      rw [hs] at h
      exact ih s2 s1 h

/-- Every run from `NewSSEHandler` goes through without a panic and ends in a
state satisfying the invariant. -/
theorem invariant_run (acts : List Action) :
    ∃ s, run NewSSEHandler acts = .ok s ∧ Invariant s := by
  obtain ⟨s, _, hrun, hinv, _, _⟩ := run_spec acts NewSSEHandler invariant_init
  exact ⟨s, hrun, hinv⟩

/-- A session that has returned is never touched again, and neither is its
channel. -/
theorem returned_step (s s1 : State) (a : Action) (h : Invariant s)
    (hstep : step s a = .ok s1) (c : Nat) (hp : (s.sess c).phase = .returned) :
    s1.sess c = s.sess c ∧ s1.chans c = s.chans c := by
  have hnot : c ∉ s.clients := by
    intro hmem
    have := (h.registered c hmem).2.2
    rw [hp] at this
    cases this
  have hns : (s.sess c).phase ≠ .streaming := by rw [hp]; decide
  cases a with
  | notify m =>
    cases hstep
    unfold NotifyNewMessage
    split <;> exact ⟨rfl, rfl⟩
  | broadcast db =>
    cases hq : s.notify with
    | nil =>
      have : broadcast s db = .ok s := by simp [broadcast, hq]
      simp only [step] at hstep
      rw [this] at hstep
      cases hstep
      exact ⟨rfl, rfl⟩
    | cons m rest =>
      obtain ⟨chans1, hrun, hout, _⟩ :=
        broadcast_spec s db m rest hq h.nodup (fun k hk => (h.registered k hk).2.1)
      simp only [step] at hstep
      rw [hrun] at hstep
      cases hstep
      exact ⟨rfl, hout c hnot⟩
  | connect ok =>
    cases hstep
    have hcn : c ≠ s.next := by
      intro e
      have := (h.unused c (by omega)).1
      rw [this] at hp
      cases hp
    simp [StreamMessages.start, Function.update_noteq hcn]
  | recv k ok =>
    obtain ⟨s2, hrun, _, _, _, _, hfr, hsame⟩ := onMessage_spec s k ok h
    simp only [step] at hstep
    rw [hrun] at hstep
    cases hstep
    by_cases hk : c = k
    · subst hk
      rw [hsame hns]
      exact ⟨rfl, rfl⟩
    · exact ⟨(hfr c hk).2, (hfr c hk).1⟩
  | tick k ok =>
    obtain ⟨s2, hrun, _, _, _, _, hfr, hsame⟩ := onTick_spec s k ok h
    simp only [step] at hstep
    rw [hrun] at hstep
    cases hstep
    by_cases hk : c = k
    · subst hk
      rw [hsame hns]
      exact ⟨rfl, rfl⟩
    · exact ⟨(hfr c hk).2, (hfr c hk).1⟩
  | done k =>
    obtain ⟨s2, hrun, _, _, _, _, hfr, hsame⟩ := onDone_spec s k h
    simp only [step] at hstep
    rw [hrun] at hstep
    cases hstep
    by_cases hk : c = k
    · subst hk
      rw [hsame hns]
      exact ⟨rfl, rfl⟩
    · exact ⟨(hfr c hk).2, (hfr c hk).1⟩

theorem returned_run (acts : List Action) :
    ∀ s s1, Invariant s → run s acts = .ok s1 → ∀ c, (s.sess c).phase = .returned →
      s1.sess c = s.sess c ∧ s1.chans c = s.chans c := by
  induction acts with
  | nil =>
    intro s s1 _ hrun c _
    cases hrun
    exact ⟨rfl, rfl⟩
  | cons a rest ih =>
    intro s s1 h hrun c hp
    obtain ⟨s2, _, hstep, hinv2, _, _⟩ := step_spec s a h
    simp only [run, hstep] at hrun
    obtain ⟨e1, e2⟩ := returned_step s s2 a h hstep c hp
    obtain ⟨f1, f2⟩ := ih s2 s1 hinv2 hrun c (by rw [e1]; exact hp)
    exact ⟨f1.trans e1, f2.trans e2⟩

/-- A `return` from the loop, whatever was logged before it: the session has
returned, its channel is out of the registry and closed, the cleanup ran once,
the ticker is stopped, and the registry lost that one key only. -/
theorem exit_spec (s : State) (c : Nat) (h : Invariant s)
    (hp : (s.sess c).phase = .streaming) :
    ∃ s1, StreamMessages.ret s c = .ok s1 ∧ (s1.sess c).phase = .returned ∧
      c ∉ s1.clients ∧ (s1.chans c).closed = true ∧ (s1.sess c).cleanups = 1 ∧
      (s1.sess c).tickerRunning = false ∧
      s1.clients = s.clients.filter (fun k => k != c) := by
  obtain ⟨s1, hrun, hinv, hcl, hph, _⟩ := invariant_ret s c h hp
  obtain ⟨h1, h2, h3⟩ := hinv.finished c hph
  refine ⟨s1, hrun, hph, ?_, h1, h2, h3, hcl⟩
  rw [hcl]
  simp

/-! ## What the sessions write -/

theorem logged_init : Logged NewSSEHandler := by
  intro c
  exact ⟨by simp [NewSSEHandler, Chan.make], [], by simp [NewSSEHandler, Session.idle],
    by simp [NewSSEHandler, Chan.make]⟩

/-- A step that appends the frames of `extra` to a log, moves the "message"
events among them to the received ones, and puts only "message" events on the
buffers, keeps `Logged`. -/
theorem logged_of (s s1 : State) (h : Logged s)
    (H : ∀ c, (∀ ev ∈ (s1.chans c).buf, ev ∈ (s.chans c).buf ∨ ev.Type_ = "message") ∧
      ∃ extra : List (SSEMessage × Bool),
        (s1.sess c).out = (s.sess c).out ++ extra.map (fun p => sendSSE p.1 p.2) ∧
        (s1.chans c).taken = (s.chans c).taken ++
          (extra.map Prod.fst).filter (fun ev => ev.Type_ == "message")) :
    Logged s1 := by
  intro c
  obtain ⟨hbuf, log, hout, htaken⟩ := h c
  obtain ⟨hbuf1, extra, hout1, htaken1⟩ := H c
  refine ⟨fun ev hev => ?_, log ++ extra, ?_, ?_⟩
  · rcases hbuf1 ev hev with h1 | h1
    · exact hbuf ev h1
    · exact h1
  · rw [hout1, hout, List.map_append]
  · rw [htaken1, ← htaken, List.map_append, List.filter_append]

theorem logged_same (s s1 : State) (h : Logged s)
    (H : ∀ c, (s1.chans c).buf = (s.chans c).buf ∧ (s1.chans c).taken = (s.chans c).taken ∧
      (s1.sess c).out = (s.sess c).out) : Logged s1 := by
  refine logged_of s s1 h (fun c => ?_)
  obtain ⟨h1, h2, h3⟩ := H c
  exact ⟨fun ev hev => Or.inl (h1 ▸ hev), [], by simp [h3], by simp [h2]⟩

theorem ret_fields (s : State) (c : Nat) (hopen : (s.chans c).closed = false) :
    ∃ s1, StreamMessages.ret s c = .ok s1 ∧
      ∀ k, (s1.chans k).buf = (s.chans k).buf ∧ (s1.chans k).taken = (s.chans k).taken ∧
        (s1.sess k).out = (s.sess k).out := by
  refine ⟨_, ret_spec s c hopen, fun k => ?_⟩
  by_cases hk : k = c
  · subst hk
    simp
  · simp [Function.update_noteq hk]

theorem logged_ret (s s1 : State) (c : Nat) (h : Logged s)
    (hopen : (s.chans c).closed = false) (hrun : StreamMessages.ret s c = .ok s1) :
    Logged s1 := by
  obtain ⟨s2, hrun2, hf⟩ := ret_fields s c hopen
  rw [hrun2] at hrun
  cases hrun
  exact logged_same s _ h hf

theorem logged_ping (s : State) (c : Nat) (ok : Bool) (h : Logged s) :
    Logged (logWrite s c (sendSSE ⟨"ping", Message.zero⟩ ok)) := by
  refine logged_of s _ h (fun k => ⟨fun ev hev => Or.inl hev, ?_⟩)
  by_cases hk : k = c
  · subst hk
    exact ⟨[(⟨"ping", Message.zero⟩, ok)], by simp [logWrite], by simp [logWrite]⟩
  · exact ⟨[], by simp [logWrite, Function.update_noteq hk], by simp [logWrite]⟩

theorem logged_take (s : State) (c : Nat) (ok : Bool) (x : SSEMessage)
    (rest : List SSEMessage) (h : Logged s) (hb : (s.chans c).buf = x :: rest) :
    Logged (logWrite { s with chans := (Function.update s.chans c
      { s.chans c with taken := (s.chans c).taken ++ [x], buf := rest }) } c (sendSSE x ok)) := by
  have hx : x.Type_ = "message" := (h c).1 x (by rw [hb]; exact List.mem_cons_self _ _)
  refine logged_of s _ h (fun k => ?_)
  by_cases hk : k = c
  · subst hk
    refine ⟨fun ev hev => Or.inl ?_, [(x, ok)], by simp [logWrite], by simp [logWrite, hx]⟩
    have hev1 : ev ∈ rest := by simpa [logWrite] using hev
    rw [hb]
    exact List.mem_cons_of_mem _ hev1
  · exact ⟨fun ev hev => Or.inl (by simpa [logWrite, Function.update_noteq hk] using hev), [],
      by simp [logWrite, Function.update_noteq hk], by simp [logWrite, Function.update_noteq hk]⟩

theorem logged_start (s : State) (ok : Bool) (hinv : Invariant s) (h : Logged s) :
    Logged (StreamMessages.start s ok) := by
  obtain ⟨hs, hc⟩ := hinv.unused s.next (le_refl _)
  refine logged_of s _ h (fun k => ?_)
  by_cases hk : k = s.next
  · subst hk
    exact ⟨fun ev hev => by simp [StreamMessages.start, Chan.make] at hev,
      [(⟨"connected", Message.zero⟩, ok)],
      by simp [StreamMessages.start, hs, Session.idle],
      by simp [StreamMessages.start, hc, Chan.make]⟩
  · exact ⟨fun ev hev =>
        Or.inl (by simpa [StreamMessages.start, Function.update_noteq hk] using hev), [],
      by simp [StreamMessages.start, Function.update_noteq hk],
      by simp [StreamMessages.start, Function.update_noteq hk]⟩

theorem logged_broadcast (s s1 : State) (db : DB) (hinv : Invariant s) (h : Logged s)
    (hrun : broadcast s db = .ok s1) : Logged s1 := by
  cases hq : s.notify with
  | nil =>
    have : broadcast s db = .ok s := by simp [broadcast, hq]
    rw [this] at hrun
    cases hrun
    exact h
  | cons m rest =>
    obtain ⟨chans1, hrun1, hout, hin⟩ :=
      broadcast_spec s db m rest hq hinv.nodup (fun c hc => (hinv.registered c hc).2.1)
    rw [hrun1] at hrun
    cases hrun
    refine logged_of s _ h (fun k => ⟨?_, [], by simp, ?_⟩)
    · intro ev hev
      have hev1 : ev ∈ (chans1 k).buf := hev
      by_cases hk : k ∈ s.clients
      · rw [hin k hk] at hev1
        unfold Chan.offer at hev1
        split at hev1
        · rcases List.mem_append.mp hev1 with h1 | h1
          · exact Or.inl h1
          · have : ev = sseMsg db m := by simpa using h1
            exact Or.inr (this ▸ rfl)
        · exact Or.inl hev1
      · rw [hout k hk] at hev1
        exact Or.inl hev1
    · show (chans1 k).taken = _
      by_cases hk : k ∈ s.clients
      · rw [hin k hk, offer_taken]
        simp
      · rw [hout k hk]
        simp

theorem logged_step (s s1 : State) (a : Action) (hinv : Invariant s) (h : Logged s)
    (hstep : step s a = .ok s1) : Logged s1 := by
  cases a with
  | notify m =>
    cases hstep
    refine logged_same s _ h (fun c => ?_)
    unfold NotifyNewMessage
    split <;> exact ⟨rfl, rfl, rfl⟩
  | broadcast db => exact logged_broadcast s s1 db hinv h hstep
  | connect ok =>
    cases hstep
    exact logged_start s ok hinv h
  | recv c ok =>
    simp only [step] at hstep
    by_cases hp : (s.sess c).phase = .streaming
    · have hopen := (hinv.registered c (hinv.looping c hp).1).2.1
      cases hb : (s.chans c).buf with
      | nil =>
        rw [onMessage_empty s c ok hopen hb] at hstep
        cases hstep
        exact h
      | cons x rest =>
        rw [onMessage_streaming s c ok x rest hp hb] at hstep
        have hl := logged_take s c ok x rest h hb
        cases ok with
        | true =>
          simp only [if_true] at hstep
          cases hstep
          exact hl
        | false =>
          simp only [Bool.false_eq_true, if_false] at hstep
          exact logged_ret _ s1 c hl (by simpa [logWrite] using hopen) hstep
    · simp only [StreamMessages.onMessage, hp, if_false] at hstep
      cases hstep
      exact h
  | tick c ok =>
    simp only [step] at hstep
    by_cases hp : (s.sess c).phase = .streaming
    · have hopen := (hinv.registered c (hinv.looping c hp).1).2.1
      rw [onTick_streaming s c ok hp] at hstep
      have hl := logged_ping s c ok h
      cases ok with
      | true =>
        simp only [if_true] at hstep
        cases hstep
        exact hl
      | false =>
        simp only [Bool.false_eq_true, if_false] at hstep
        exact logged_ret _ s1 c hl (by simpa [logWrite] using hopen) hstep
    · simp only [StreamMessages.onTick, hp, if_false] at hstep
      cases hstep
      exact h
  | done c =>
    simp only [step] at hstep
    by_cases hp : (s.sess c).phase = .streaming
    · have hopen := (hinv.registered c (hinv.looping c hp).1).2.1
      rw [onDone_streaming s c hp] at hstep
      exact logged_ret s s1 c h hopen hstep
    · simp only [StreamMessages.onDone, hp, if_false] at hstep
      cases hstep
      exact h

theorem logged_run (acts : List Action) :
    ∀ s s1, Invariant s → Logged s → run s acts = .ok s1 → Logged s1 := by
  induction acts with
  | nil =>
    intro s s1 _ h hrun
    cases hrun
    exact h
  | cons a rest ih =>
    intro s s1 hinv h hrun
    obtain ⟨s2, _, hstep, hinv2, _, _⟩ := step_spec s a hinv
    simp only [run, hstep] at hrun
    exact ih s2 s1 hinv2 (logged_step s s2 a hinv h hstep) hrun

/-! ## The concrete states satisfy the invariant -/

theorem invariant_fullAndFree : Invariant fullAndFree := by
  refine ⟨by simp [fullAndFree], ?_, ?_, ?_, ?_, ?_, by simp [fullAndFree], ?_⟩
  · intro c hc
    have hc01 : c = 0 ∨ c = 1 := by simpa [fullAndFree] using hc
    rcases hc01 with rfl | rfl <;> simp [fullAndFree, Chan.make]
  · intro c hc
    by_cases hlt : c < 2
    · have hc01 : c = 0 ∨ c = 1 := by omega
      rcases hc01 with rfl | rfl <;> simp [fullAndFree]
    · simp [fullAndFree, hlt, Session.idle] at hc
  · intro c hc
    by_cases hlt : c < 2
    · simp [fullAndFree, hlt] at hc
    · simp [fullAndFree, hlt, Session.idle] at hc
  · intro c hc
    have hc2 : 2 ≤ c := hc
    have h0 : c ≠ 0 := by omega
    have hlt : ¬ c < 2 := by omega
    simp [fullAndFree, h0, hlt]
  · intro c
    by_cases hc0 : c = 0
    · subst hc0
      simp [fullAndFree]
    · simp [fullAndFree, hc0, Chan.make]
  · intro c
    by_cases hc0 : c = 0
    · subst hc0
      simp [fullAndFree]
    · simp [fullAndFree, hc0, Chan.make]

theorem invariant_oneSubscriber : Invariant oneSubscriber :=
  invariant_notify _ hi (invariant_start _ true invariant_init)

/-! ## The claims -/

/-- C1 (as amended): in one iteration of `broadcast` that dequeues `M`, every
registered subscriber channel holding fewer than 10 pending events receives
exactly one event, appended after the events already pending on it; the event
has type "message" and carries `M` as line 103 re-read it from the store
(`db.First M`, which has the id of `M` and is `M` itself when the store has no
live row with that id). -/
theorem broadcast_fan_out (s : State) (db : DB) (M : Message) (rest : List Message) (c : Nat)
    (h : Invariant s) (hq : s.notify = M :: rest) (hc : c ∈ s.clients)
    (hlen : (s.chans c).buf.length < 10) :
    ∃ s1, broadcast s db = .ok s1 ∧
      (s1.chans c).buf = (s.chans c).buf ++ [⟨"message", db.First M⟩] ∧
      (s1.chans c).taken = (s.chans c).taken ∧
      (db.First M).ID = M.ID ∧
      ((∀ r ∈ db.messages, r.ID = M.ID → r.DeletedAt ≠ none) → db.First M = M) := by
  obtain ⟨chans1, hrun, _, hin⟩ :=
    broadcast_spec s db M rest hq h.nodup (fun k hk => (h.registered k hk).2.1)
  refine ⟨_, hrun, ?_, ?_, First_ID db M, First_absent db M⟩
  · show (chans1 c).buf = _
    rw [hin c hc]
    simp [Chan.offer, h.caps c, hlen, sseMsg]
  · show (chans1 c).taken = _
    rw [hin c hc, offer_taken]

/-- C1, witness: the theorem at `oneSubscriber` and a store without rows, where
channel 0 receives the event carrying `hi`. -/
theorem broadcast_fan_out_witness :
    Invariant oneSubscriber ∧ oneSubscriber.notify = [hi] ∧ 0 ∈ oneSubscriber.clients ∧
    (oneSubscriber.chans 0).buf.length < 10 ∧
    ∃ s1, broadcast oneSubscriber emptyStore = .ok s1 ∧
      (s1.chans 0).buf = (oneSubscriber.chans 0).buf ++ [⟨"message", emptyStore.First hi⟩] ∧
      (s1.chans 0).taken = (oneSubscriber.chans 0).taken ∧
      (emptyStore.First hi).ID = hi.ID ∧
      ((∀ r ∈ emptyStore.messages, r.ID = hi.ID → r.DeletedAt ≠ none) →
        emptyStore.First hi = hi) :=
  ⟨invariant_oneSubscriber, rfl, by decide, by decide,
    broadcast_fan_out oneSubscriber emptyStore hi [] 0 invariant_oneSubscriber rfl
      (by decide) (by decide)⟩

/-- C1, counterexample: with one registered, empty channel and `hi` at the head
of the queue, an iteration of `broadcast` that finds message 1 edited in the
store places on the channel an event that carries the edited row, not `hi`. -/
theorem broadcast_event_not_dequeued_message :
    oneSubscriber.notify = [hi] ∧ 0 ∈ oneSubscriber.clients ∧
    (oneSubscriber.chans 0).buf = [] ∧
    ∃ s1, broadcast oneSubscriber editedStore = .ok s1 ∧
      (s1.chans 0).buf =
        [⟨"message", { hi with Content := "edited", UpdatedAt := ⟨"2024-01-01T00:00:05Z"⟩ }⟩] ∧
      (s1.chans 0).buf ≠ (oneSubscriber.chans 0).buf ++ [⟨"message", hi⟩] :=
  ⟨rfl, by decide, rfl, _, rfl, by decide, by decide⟩

/-- C2: `NotifyNewMessage` is total (it returns a state, and as a step of a run
it never panics); on a queue holding 100 messages or more it leaves the whole
state unchanged, and on a queue holding fewer it appends the message at the
tail of the queue and changes nothing else. -/
theorem NotifyNewMessage_drops_on_overload (s : State) (m : Message) :
    step s (.notify m) = .ok (NotifyNewMessage s m) ∧
    (100 ≤ s.notify.length → NotifyNewMessage s m = s) ∧
    (s.notify.length < 100 →
      NotifyNewMessage s m = { s with notify := s.notify ++ [m] }) := by
  refine ⟨rfl, ?_, ?_⟩
  · intro hfull
    have : ¬ s.notify.length < 100 := by omega
    simp [NotifyNewMessage, this]
  · intro hfree
    simp [NotifyNewMessage, hfree]

/-- C2, witness: a full queue drops `hi`, an empty one takes it. -/
theorem NotifyNewMessage_drops_on_overload_witness :
    fullQueue.notify.length = 100 ∧ NotifyNewMessage fullQueue hi = fullQueue ∧
    NewSSEHandler.notify.length < 100 ∧
    NotifyNewMessage NewSSEHandler hi = { NewSSEHandler with notify := [hi] } :=
  ⟨by simp [fullQueue],
    (NotifyNewMessage_drops_on_overload fullQueue hi).2.1 (by simp [fullQueue]),
    by decide,
    (NotifyNewMessage_drops_on_overload NewSSEHandler hi).2.2 (by decide)⟩

/-- C3: in an iteration of `broadcast`, a registered channel that already holds
10 pending events (or more) is left exactly as it was, the registry is left as
it was, and every other channel ends up exactly as it would if the full channel
had been deleted from `h.clients` beforehand. -/
theorem full_channel_loses_only_its_own_event (s : State) (db : DB) (M : Message)
    (rest : List Message) (c : Nat) (h : Invariant s) (hq : s.notify = M :: rest)
    (hc : c ∈ s.clients) (hfull : 10 ≤ (s.chans c).buf.length) :
    ∃ s1 t1, broadcast s db = .ok s1 ∧ broadcast (deleteClient s c) db = .ok t1 ∧
      s1.chans c = s.chans c ∧ s1.clients = s.clients ∧ s1.notify = rest ∧
      ∀ k, k ≠ c → s1.chans k = t1.chans k := by
  obtain ⟨chans1, hrun, hout, hin⟩ :=
    broadcast_spec s db M rest hq h.nodup (fun k hk => (h.registered k hk).2.1)
  have hnd2 : (deleteClient s c).clients.Nodup := List.Nodup.filter _ h.nodup
  have hopen2 : ∀ k ∈ (deleteClient s c).clients, ((deleteClient s c).chans k).closed = false := by
    intro k hk
    exact (h.registered k (List.mem_filter.mp hk).1).2.1
  obtain ⟨chans2, hrun2, hout2, hin2⟩ :=
    broadcast_spec (deleteClient s c) db M rest hq hnd2 hopen2
  refine ⟨_, _, hrun, hrun2, ?_, rfl, rfl, ?_⟩
  · show chans1 c = s.chans c
    rw [hin c hc]
    have : ¬ (s.chans c).buf.length < (s.chans c).cap := by rw [h.caps c]; omega
    simp [Chan.offer, this]
  · intro k hk
    show chans1 k = chans2 k
    by_cases hmem : k ∈ s.clients
    · have hmem2 : k ∈ (deleteClient s c).clients :=
        List.mem_filter.mpr ⟨hmem, by simpa using hk⟩
      rw [hin k hmem, hin2 k hmem2]
      rfl
    · have hmem2 : k ∉ (deleteClient s c).clients := fun hk2 => hmem (List.mem_filter.mp hk2).1
      rw [hout k hmem, hout2 k hmem2]
      rfl

/-- C3, witness: the theorem at `fullAndFree`, where channel 0 is full and channel
1 is registered with room.  Channel 0 is left as it was; channel 1 receives the
event for `hi`, exactly as it does when channel 0 is deleted from the registry
beforehand. -/
theorem full_channel_loses_only_its_own_event_witness :
    Invariant fullAndFree ∧ fullAndFree.notify = [hi] ∧ fullAndFree.clients = [0, 1] ∧
    10 ≤ (fullAndFree.chans 0).buf.length ∧ (fullAndFree.chans 1).buf = [] ∧
    (deleteClient fullAndFree 0).clients = [1] ∧
    ∃ s1 t1, broadcast fullAndFree emptyStore = .ok s1 ∧
      broadcast (deleteClient fullAndFree 0) emptyStore = .ok t1 ∧
      s1.chans 0 = fullAndFree.chans 0 ∧ s1.clients = fullAndFree.clients ∧
      s1.notify = [] ∧ (∀ k, k ≠ 0 → s1.chans k = t1.chans k) ∧
      (s1.chans 1).buf = [hiEvent] ∧ (t1.chans 1).buf = [hiEvent] := by
  obtain ⟨s1, t1, h1, h2, h3, h4, h5, h6⟩ :=
    full_channel_loses_only_its_own_event fullAndFree emptyStore hi [] 0
      invariant_fullAndFree rfl (by decide) (by decide)
  have e1 : broadcast fullAndFree emptyStore = .ok _ := rfl
  have e2 : broadcast (deleteClient fullAndFree 0) emptyStore = .ok _ := rfl
  rw [e1] at h1
  rw [e2] at h2
  cases h1
  cases h2
  exact ⟨invariant_fullAndFree, rfl, rfl, by decide, by decide, by decide,
    _, _, e1, e2, h3, h4, h5, h6, by decide, by decide⟩

/-- C4: every run of `NotifyNewMessage` calls, connects, session steps and
`broadcast` iterations from `NewSSEHandler` goes through; at its end the
messages the worker has dequeued followed by those still queued are exactly
the messages `NotifyNewMessage` accepted, in the order of acceptance (the
worker dequeues in arrival order), and everything that was ever placed on a
subscriber channel is, event by event and in the same order, what `broadcast`
built from a subsequence of the dequeued messages, hence of the accepted
ones.  What the session wrote follows the same order: its write log is the
list of the frames of some events, in order, and the "message" events among
these are exactly the events it has received from its channel, which are the
first of the events placed on that channel. -/
theorem fifo_per_subscriber (acts : List Action) :
    ∃ s, run NewSSEHandler acts = .ok s ∧
      s.drained ++ s.notify = accepted NewSSEHandler acts ∧
      s.drained <+: accepted NewSSEHandler acts ∧
      (∀ c, ∃ sub, sub.Sublist s.drained ∧ sub.Sublist (accepted NewSSEHandler acts) ∧
        List.Forall₂ Built (s.chans c).placed sub) ∧
      (∀ c, ∃ log : List (SSEMessage × Bool),
        (s.sess c).out = log.map (fun p => sendSSE p.1 p.2) ∧
        (log.map Prod.fst).filter (fun ev => ev.Type_ == "message") = (s.chans c).taken ∧
        (s.chans c).taken <+: (s.chans c).placed) := by
  obtain ⟨s, d, hrun, _, hg, hacc⟩ := run_spec acts NewSSEHandler invariant_init
  have hlog := logged_run acts NewSSEHandler s invariant_init logged_init hrun
  have hacc1 : s.drained ++ s.notify = accepted NewSSEHandler acts := by
    simpa [NewSSEHandler] using hacc
  have hd : s.drained = d := by simpa [NewSSEHandler] using hg.1
  refine ⟨s, hrun, hacc1, ⟨s.notify, hacc1⟩, fun c => ?_, fun c => ?_⟩
  · obtain ⟨evs, sub, hpl, hsub, hrel⟩ := hg.2 c
    have hpl1 : (s.chans c).placed = evs := by
      simpa [NewSSEHandler, Chan.make, Chan.placed] using hpl
    refine ⟨sub, hd ▸ hsub, ?_, hpl1 ▸ hrel⟩
    rw [← hacc1]
    exact (hd ▸ hsub).trans (List.sublist_append_left _ _)
  · obtain ⟨_, log, hout, htaken⟩ := hlog c
    exact ⟨log, hout, htaken, ⟨(s.chans c).buf, rfl⟩⟩

/-- C4, witness on a concrete run: two messages are published and fanned out, and
the session of channel 0 receives and writes them; its log is the "connected"
frame followed by the frames of the two events in the order of publication. -/
theorem fifo_per_subscriber_witness :
    ∃ s, run NewSSEHandler [.connect true, .notify hi, .notify { hi with ID := 2 },
        .broadcast emptyStore, .broadcast emptyStore, .recv 0 true, .recv 0 true] = .ok s ∧
      accepted NewSSEHandler [.connect true, .notify hi, .notify { hi with ID := 2 },
        .broadcast emptyStore, .broadcast emptyStore, .recv 0 true, .recv 0 true]
        = [hi, { hi with ID := 2 }] ∧
      (s.chans 0).taken = [⟨"message", hi⟩, ⟨"message", { hi with ID := 2 }⟩] ∧
      (s.sess 0).out = [sendSSE ⟨"connected", Message.zero⟩ true,
        sendSSE ⟨"message", hi⟩ true, sendSSE ⟨"message", { hi with ID := 2 }⟩ true] := by
  obtain ⟨s, hrun, _, _, _, _⟩ := fifo_per_subscriber [.connect true, .notify hi,
    .notify { hi with ID := 2 }, .broadcast emptyStore, .broadcast emptyStore,
    .recv 0 true, .recv 0 true]
  have e : run NewSSEHandler [.connect true, .notify hi, .notify { hi with ID := 2 },
      .broadcast emptyStore, .broadcast emptyStore, .recv 0 true, .recv 0 true] = .ok _ := rfl
  rw [e] at hrun
  cases hrun
  exact ⟨_, e, by decide, by decide, by decide⟩

/-- C5, counterexample: `hi` is passed to `NotifyNewMessage` first, then a
subscriber registers channel 0, then the worker runs its iteration for `hi`:
the event carrying `hi` is placed on channel 0. -/
theorem queued_message_reaches_later_subscriber :
    ∃ s0 s1, run NewSSEHandler [.notify hi] = .ok s0 ∧ s0.clients = [] ∧ s0.notify = [hi] ∧
      run NewSSEHandler [.notify hi, .connect true, .broadcast emptyStore] = .ok s1 ∧
      s1.clients = [0] ∧ (s1.chans 0).buf = [⟨"message", hi⟩] :=
  ⟨_, _, rfl, rfl, rfl, rfl, by decide, by decide⟩

/-- C6: after every run from `NewSSEHandler`, (1) each way a session in its loop
can leave it (context cancelled, failed write of a ping frame, failed write of
a message frame) is a step that goes through and leaves the session returned,
its channel out of `h.clients` and closed, the cleanup run once, the ticker
stopped, and `h.clients` changed by the removal of that one key only; (2) a
session that has returned has its channel out of `h.clients` and closed, has
run its cleanup exactly once and has its ticker stopped, and whatever follows
leaves that session and channel as they are and the channel unregistered. -/
theorem no_leaked_registration (pre post : List Action) :
    ∃ s s2, run NewSSEHandler pre = .ok s ∧ run NewSSEHandler (pre ++ post) = .ok s2 ∧
      (∀ c a, (s.sess c).phase = .streaming →
        (a = .done c ∨ a = .tick c false ∨ (a = .recv c false ∧ (s.chans c).buf ≠ [])) →
        ∃ s1, step s a = .ok s1 ∧ (s1.sess c).phase = .returned ∧
          c ∉ s1.clients ∧ (s1.chans c).closed = true ∧ (s1.sess c).cleanups = 1 ∧
          (s1.sess c).tickerRunning = false ∧
          s1.clients = s.clients.filter (fun k => k != c)) ∧
      (∀ c, (s.sess c).phase = .returned →
        c ∉ s.clients ∧ (s.chans c).closed = true ∧ (s.sess c).cleanups = 1 ∧
        (s.sess c).tickerRunning = false ∧
        s2.sess c = s.sess c ∧ s2.chans c = s.chans c ∧ c ∉ s2.clients) := by
  obtain ⟨s, _, hrun, hinv, _, _⟩ := run_spec pre NewSSEHandler invariant_init
  obtain ⟨s2, _, hrun2, hinv2, _, _⟩ := run_spec post s hinv
  have hnotreg : ∀ (t : State), Invariant t → ∀ c, (t.sess c).phase = .returned →
      c ∉ t.clients := by
    intro t ht c hp hmem
    have := (ht.registered c hmem).2.2
    rw [hp] at this
    cases this
  refine ⟨s, s2, hrun, ?_, ?_, ?_⟩
  · rw [run_append pre post NewSSEHandler s hrun]
    exact hrun2
  · intro c a hp ha
    rcases ha with rfl | rfl | ⟨rfl, hbuf⟩
    · simp only [step]
      rw [onDone_streaming s c hp]
      exact exit_spec s c hinv hp
    · simp only [step]
      rw [onTick_streaming s c false hp]
      have hinv1 := invariant_logWrite s c (sendSSE ⟨"ping", Message.zero⟩ false) hinv hp
      have hp1 := (logWrite_phase s c (sendSSE ⟨"ping", Message.zero⟩ false)).trans hp
      simpa using exit_spec _ c hinv1 hp1
    · simp only [step]
      cases hb : (s.chans c).buf with
      | nil => exact absurd hb hbuf
      | cons x rest =>
        rw [onMessage_streaming s c false x rest hp hb]
        have hinv0 := invariant_take s c x rest hinv hp hb
        have hinv1 := invariant_logWrite _ c (sendSSE x false) hinv0 hp
        have hp1 := (logWrite_phase _ c (sendSSE x false)).trans hp
        simpa using exit_spec _ c hinv1 hp1
  · intro c hp
    obtain ⟨h1, h2, h3⟩ := hinv.finished c hp
    obtain ⟨e1, e2⟩ := returned_run post s s2 hinv hrun2 c hp
    exact ⟨hnotreg s hinv c hp, h1, h2, h3, e1, e2, hnotreg s2 hinv2 c (by rw [e1]; exact hp)⟩

/-- C6, witness on a concrete run: two sessions connect, a message is fanned
out, and session 0 leaves its loop on a failed write of that message; session 0
is then out of the registry, which still holds session 1, and stays so when
more messages are fanned out. -/
theorem no_leaked_registration_witness :
    ∃ s s2,
      run NewSSEHandler [.connect true, .connect true, .notify hi, .broadcast emptyStore,
        .recv 0 false] = .ok s ∧
      run NewSSEHandler ([.connect true, .connect true, .notify hi, .broadcast emptyStore,
        .recv 0 false] ++ [.notify hi, .broadcast emptyStore]) = .ok s2 ∧
      (s.sess 0).phase = .returned ∧ s.clients = [1] ∧ (s.sess 0).cleanups = 1 ∧
      (s.sess 0).tickerRunning = false ∧ (s.chans 0).closed = true ∧
      s2.sess 0 = s.sess 0 ∧ s2.clients = [1] ∧ (s2.chans 0).closed = true := by
  obtain ⟨s, s2, h1, h2, _, hret⟩ := no_leaked_registration
    [.connect true, .connect true, .notify hi, .broadcast emptyStore, .recv 0 false]
    [.notify hi, .broadcast emptyStore]
  have e1 : run NewSSEHandler [.connect true, .connect true, .notify hi,
      .broadcast emptyStore, .recv 0 false] = .ok _ := rfl
  have e2 : run NewSSEHandler ([.connect true, .connect true, .notify hi,
      .broadcast emptyStore, .recv 0 false] ++ [.notify hi, .broadcast emptyStore]) = .ok _ := rfl
  refine ⟨_, _, e1, e2, by decide, by decide, by decide, by decide, by decide, ?_, by decide,
    by decide⟩
  rw [e1] at h1
  rw [e2] at h2
  cases h1
  cases h2
  exact (hret 0 (by decide)).2.2.2.2.1

/-- C8 (what the code does): every frame is "data: ", the JSON envelope and a
blank line, and every envelope has the two keys "type" and "message"; so the
frames of the "connected" and of the "ping" event do carry a "message" field,
holding the zero message with the zero group (`omitempty` has no effect on a
field of struct type). -/
theorem sendSSE_frames :
    (∀ msg ok, (sendSSE msg ok).frame = "data: " ++ renderObject msg.fields ++ "\n\n") ∧
    (∀ msg : SSEMessage, msg.fields.map Prod.fst = ["type", "message"]) ∧
    (∀ msg : SSEMessage, msg.Message.fields.map Prod.fst =
      ["id", "group_id", "user", "content", "created_at", "updated_at", "group"]) ∧
    (∀ ok, (sendSSE ⟨"connected", Message.zero⟩ ok).frame =
      "data: \x7b\"type\":\"connected\",\"message\":\x7b\"id\":0,\"group_id\":0,\"user\":\"\",\"content\":\"\",\"created_at\":\"0001-01-01T00:00:00Z\",\"updated_at\":\"0001-01-01T00:00:00Z\",\"group\":\x7b\"id\":0,\"name\":\"\",\"description\":\"\",\"created_at\":\"0001-01-01T00:00:00Z\",\"updated_at\":\"0001-01-01T00:00:00Z\"\x7d\x7d\x7d\n\n") ∧
    (∀ ok, (sendSSE ⟨"ping", Message.zero⟩ ok).frame =
      "data: \x7b\"type\":\"ping\",\"message\":\x7b\"id\":0,\"group_id\":0,\"user\":\"\",\"content\":\"\",\"created_at\":\"0001-01-01T00:00:00Z\",\"updated_at\":\"0001-01-01T00:00:00Z\",\"group\":\x7b\"id\":0,\"name\":\"\",\"description\":\"\",\"created_at\":\"0001-01-01T00:00:00Z\",\"updated_at\":\"0001-01-01T00:00:00Z\"\x7d\x7d\x7d\n\n") :=
  ⟨fun _ _ => rfl, fun _ => rfl, fun _ => rfl, fun ok => by cases ok <;> decide,
    fun ok => by cases ok <;> decide⟩

/-- C9 (what the code does): a session whose "connected" frame fails to be
written stays in its loop and registered, without any cleanup; when a message
is then fanned out to it, it writes the "message" frame after the failed write
(whether or not that second write succeeds). -/
theorem failed_connected_write_is_ignored :
    (∃ s0, run NewSSEHandler [.connect false] = .ok s0 ∧
      (s0.sess 0).phase = .streaming ∧ s0.clients = [0] ∧ (s0.sess 0).cleanups = 0 ∧
      (s0.chans 0).closed = false ∧ (s0.sess 0).tickerRunning = true ∧
      (s0.sess 0).out = [sendSSE ⟨"connected", Message.zero⟩ false]) ∧
    (∀ ok, ∃ s1,
      run NewSSEHandler [.connect false, .notify hi, .broadcast emptyStore, .recv 0 ok]
        = .ok s1 ∧
      (s1.sess 0).out =
        [sendSSE ⟨"connected", Message.zero⟩ false, sendSSE ⟨"message", hi⟩ ok]) := by
  refine ⟨⟨_, rfl, by decide, by decide, by decide, by decide, by decide, by decide⟩, ?_⟩
  intro ok
  cases ok
  · exact ⟨_, rfl, by decide⟩
  · exact ⟨_, rfl, by decide⟩

/-- C10 (as amended): the event `broadcast` builds from a dequeued message `m`
has type "message" and carries a message with the id of `m`.  That message is
`m` itself, with its group id, user, content and timestamps, when the re-read of
line 103 fails or finds no live row with that id.  When the re-read finds a
live row, the event carries the group id, user, content and timestamps of that
row, whatever those of `m` are, together with the group that `Preload` loads for
it. -/
theorem broadcast_rereads_message (db : DB) (m : Message) :
    (sseMsg db m).Type_ = "message" ∧ (sseMsg db m).Message.ID = m.ID ∧
    (db.down = true → (sseMsg db m).Message = m) ∧
    ((∀ r ∈ db.messages, r.ID = m.ID → r.DeletedAt ≠ none) → (sseMsg db m).Message = m) ∧
    (∀ r, db.down = false →
      db.messages.find? (fun r => r.ID == m.ID && r.DeletedAt.isNone) = some r →
      (sseMsg db m).Message.GroupID = r.GroupID ∧ (sseMsg db m).Message.User = r.User ∧
      (sseMsg db m).Message.Content = r.Content ∧
      (sseMsg db m).Message.CreatedAt = r.CreatedAt ∧
      (sseMsg db m).Message.UpdatedAt = r.UpdatedAt ∧
      (sseMsg db m).Message.Group =
        (if r.GroupID = 0 then m.Group
          else (db.groups.find? (fun g => g.ID == r.GroupID)).getD Group.zero) ∧
      (sseMsg db m).Message = { r with Group := (sseMsg db m).Message.Group }) := by
  refine ⟨rfl, First_ID db m, First_down db m, First_absent db m, ?_⟩
  intro r hup hr
  have hF : (sseMsg db m).Message = db.preloadGroup { r with Group := m.Group } :=
    First_found db m r hup hr
  rw [hF]
  unfold DB.preloadGroup
  by_cases hz : r.GroupID = 0
  · simp [hz]
  · simp [hz]

/-- C10, witness: a store without rows and a store out of reach both leave `hi`
as it is; with message 1 edited in the store the event carries the edited
content and the group of the store. -/
theorem broadcast_rereads_message_witness :
    (sseMsg emptyStore hi).Message = hi ∧
    (sseMsg { editedStore with down := true } hi).Message = hi ∧
    (sseMsg editedStore hi).Message.Content = "edited" ∧
    (sseMsg editedStore hi).Message.Group = hi.Group :=
  ⟨(broadcast_rereads_message emptyStore hi).2.2.2.1 (by decide),
    (broadcast_rereads_message { editedStore with down := true } hi).2.2.1 rfl,
    ((broadcast_rereads_message editedStore hi).2.2.2.2 _ rfl rfl).2.2.1,
    (((broadcast_rereads_message editedStore hi).2.2.2.2 _ rfl rfl).2.2.2.2.2.1).trans
      (by decide)⟩

/-- C10, counterexample: `hi` was accepted with content "hi"; message 1 is
edited in the store before the worker dequeues it; the event built for it has
another content and another update time than `hi`. -/
theorem broadcast_changes_published_message :
    hi.Content = "hi" ∧ (sseMsg editedStore hi).Message.ID = hi.ID ∧
    (sseMsg editedStore hi).Message.Content = "edited" ∧
    (sseMsg editedStore hi).Message.Content ≠ hi.Content ∧
    (sseMsg editedStore hi).Message.UpdatedAt ≠ hi.UpdatedAt :=
  ⟨rfl, by decide, by decide, by decide, by decide⟩

/-! ## Lemmas on the loop taken key by key -/

theorem sweep_idle (n : Nat) (s : State) : fineRun s none (sweep n) = .ok (s, none) := by
  induction n with
  | zero => rfl
  | succ n ih =>
    simp only [sweep, fineRun, fineStep]
    exact ih

theorem sweep_loop (ev : SSEMessage) :
    ∀ (todo : List Nat) (s : State) (t : Option (List Nat)) (p : List Nat),
      t.getD s.clients = todo → (∀ c ∈ todo, c ∈ s.clients) →
      fineRun s (some { sseMsg := ev, todo := t, produced := p, clientChan := none })
          (sweep todo.length) =
        match fanOut ev todo s.chans with
        | .error p => .error p
        | .ok chans => .ok ({ s with chans := chans }, none) := by
  intro todo
  induction todo with
  | nil =>
    intro s t p ht _
    simp [sweep, fineRun, fineStep, broadcast.next, fanOut, ht]
  | cons c rest ih =>
    intro s t p ht hsub
    have hfilter : (c :: rest).filter (fun k => decide (k ∈ s.clients)) = c :: rest :=
      List.filter_eq_self.mpr (fun k hk => by simpa using hsub k hk)
    simp only [List.length_cons, sweep, fineRun, fineStep, broadcast.next, ht, hfilter,
      broadcast.send, fanOut]
    cases hsend : (s.chans c).trySend ev with
    | error p => rfl
    | ok ch =>
      simp only []
      have hsub1 : ∀ k ∈ rest,
          k ∈ ({ s with chans := Function.update s.chans c ch } : State).clients :=
        fun k hk => hsub k (List.mem_cons_of_mem _ hk)
      rw [ih { s with chans := Function.update s.chans c ch } (some rest) (c :: p) rfl hsub1]

/-- A loop of the worker that no other goroutine interrupts does what the
iteration taken as a whole does. -/
theorem sweep_is_broadcast (s : State) (db : DB) :
    fineRun s none (.act (.broadcast db) :: sweep s.clients.length) =
      match broadcast s db with
      | .error p => .error p
      | .ok s1 => .ok (s1, none) := by
  cases hq : s.notify with
  | nil =>
    simp only [fineRun, fineStep, broadcast.enter, broadcast, hq]
    exact sweep_idle _ s
  | cons m rest =>
    simp only [fineRun, fineStep, broadcast.enter, broadcast, hq]
    have h := sweep_loop (sseMsg db m) s.clients
      { s with notify := rest, drained := s.drained ++ [m] } none [] rfl (fun _ hc => hc)
    rw [h]
    cases fanOut (sseMsg db m) s.clients s.chans <;> rfl

/-! ## Runs with the loop taken key by key -/

theorem invariant_dequeue (s : State) (m : Message) (rest : List Message) (h : Invariant s)
    (hq : s.notify = m :: rest) :
    Invariant { s with notify := rest, drained := s.drained ++ [m] } := by
  have hlen : s.notify.length ≤ 100 := h.bounded.1
  rw [hq] at hlen
  refine ⟨h.nodup, h.registered, h.looping, h.finished, h.unused, h.caps, ?_, h.bounded.2⟩
  show rest.length ≤ 100
  simp only [List.length_cons] at hlen
  omega

theorem invariant_offer (s : State) (c : Nat) (ev : SSEMessage) (h : Invariant s)
    (hlt : c < s.next) :
    Invariant { s with chans := Function.update s.chans c ((s.chans c).offer ev) } := by
  have hch : ∀ k, ((Function.update s.chans c ((s.chans c).offer ev)) k).closed
        = (s.chans k).closed ∧
      ((Function.update s.chans c ((s.chans c).offer ev)) k).cap = (s.chans k).cap ∧
      ((Function.update s.chans c ((s.chans c).offer ev)) k).buf.length ≤ 10 := by
    intro k
    by_cases hk : k = c
    · subst hk
      simp only [Function.update_same, offer_closed, offer_cap, true_and]
      have := offer_len (s.chans k) ev (by rw [h.caps k]; exact h.bounded.2 k)
      rw [h.caps k] at this
      exact this
    · simp only [Function.update_noteq hk, true_and]
      exact h.bounded.2 k
  refine ⟨h.nodup, ?_, h.looping, ?_, ?_, ?_, h.bounded.1, fun k => (hch k).2.2⟩
  · intro k hk
    obtain ⟨h1, h2, h3⟩ := h.registered k hk
    exact ⟨h1, (hch k).1.trans h2, h3⟩
  · intro k hk
    obtain ⟨h1, h2, h3⟩ := h.finished k hk
    exact ⟨(hch k).1.trans h1, h2, h3⟩
  · intro k hk
    have hk : s.next ≤ k := hk
    obtain ⟨h1, h2⟩ := h.unused k hk
    refine ⟨h1, ?_⟩
    have hkc : k ≠ c := by omega
    simp [Function.update_noteq hkc, h2]
  · intro k
    exact (hch k).2.1.trans (h.caps k)

theorem ret_next (s s1 : State) (c : Nat) (hopen : (s.chans c).closed = false)
    (hrun : StreamMessages.ret s c = .ok s1) : s1.next = s.next := by
  rw [ret_spec s c hopen] at hrun
  cases hrun
  rfl

/-- An action other than the worker's leaves the dequeued messages and what was
placed on the channels as they are, and frees no address. -/
theorem step_quiet (s : State) (a : Action) (h : Invariant s)
    (ha : ∀ db, a ≠ .broadcast db) :
    ∃ s1, step s a = .ok s1 ∧ Invariant s1 ∧ s1.drained = s.drained ∧
      (∀ k, (s1.chans k).placed = (s.chans k).placed) ∧ s.next ≤ s1.next := by
  cases a with
  | notify m =>
    refine ⟨_, rfl, invariant_notify s m h, ?_, ?_, ?_⟩ <;>
      (unfold NotifyNewMessage; split <;> simp)
  | broadcast db => exact absurd rfl (ha db)
  | connect ok =>
    exact ⟨_, rfl, invariant_start s ok h, rfl, start_placed s ok h,
      by simp [StreamMessages.start]⟩
  | recv c ok =>
    obtain ⟨s1, hrun, hinv, hd, _, hpl, _, hsame⟩ := onMessage_spec s c ok h
    refine ⟨s1, hrun, hinv, hd, hpl, ?_⟩
    by_cases hp : (s.sess c).phase = .streaming
    · have hopen := (h.registered c (h.looping c hp).1).2.1
      cases hb : (s.chans c).buf with
      | nil =>
        rw [onMessage_empty s c ok hopen hb] at hrun
        cases hrun
        exact le_refl _
      | cons x rest =>
        rw [onMessage_streaming s c ok x rest hp hb] at hrun
        cases ok with
        | true =>
          simp only [if_true] at hrun
          cases hrun
          exact le_refl _
        | false =>
          simp only [Bool.false_eq_true, if_false] at hrun
          rw [ret_next _ s1 c (by simpa [logWrite] using hopen) hrun]
          exact le_refl _
    · rw [hsame hp]
  | tick c ok =>
    obtain ⟨s1, hrun, hinv, hd, _, hpl, _, hsame⟩ := onTick_spec s c ok h
    refine ⟨s1, hrun, hinv, hd, hpl, ?_⟩
    by_cases hp : (s.sess c).phase = .streaming
    · have hopen := (h.registered c (h.looping c hp).1).2.1
      rw [onTick_streaming s c ok hp] at hrun
      cases ok with
      | true =>
        simp only [if_true] at hrun
        cases hrun
        exact le_refl _
      | false =>
        simp only [Bool.false_eq_true, if_false] at hrun
        rw [ret_next _ s1 c (by simpa [logWrite] using hopen) hrun]
        exact le_refl _
    · rw [hsame hp]
  | done c =>
    obtain ⟨s1, hrun, hinv, hd, _, hpl, _, hsame⟩ := onDone_spec s c h
    refine ⟨s1, hrun, hinv, hd, hpl, ?_⟩
    by_cases hp : (s.sess c).phase = .streaming
    · have hopen := (h.registered c (h.looping c hp).1).2.1
      rw [onDone_streaming s c hp] at hrun
      rw [ret_next s s1 c hopen hrun]
    · rw [hsame hp]

theorem last_of_append (old e init : List Message) (m : Message)
    (h : old ++ e = init ++ [m]) (he : e ≠ []) : e = e.dropLast ++ [m] := by
  have h1 : (old ++ e).getLast? = some m := by rw [h]; simp
  rw [List.getLast?_append_of_ne_nil _ he] at h1
  have h2 := List.dropLast_append_getLast? m h1
  exact h2.symm

theorem trySend_ok (ch0 ch : Chan) (x : SSEMessage) (h : ch0.trySend x = .ok ch) :
    ch0.closed = false ∧ ch = ch0.offer x := by
  by_cases hc : ch0.closed = true
  · simp [Chan.trySend, hc] at h
  · have hc1 : ch0.closed = false := by simpa using hc
    rw [trySend_open ch0 x hc1] at h
    cases h
    exact ⟨hc1, rfl⟩

theorem offer_placed (ch : Chan) (x : SSEMessage) :
    (ch.offer x).placed = ch.placed ++ [x] ∨ (ch.offer x).placed = ch.placed := by
  unfold Chan.offer
  split
  · exact Or.inl (by simp [Chan.placed])
  · exact Or.inr rfl

theorem fine_act (s : State) (w : Option Fanning) (a : Action)
    (ha : ∀ db, a ≠ .broadcast db) :
    fineStep s w (.act a) =
      match step s a with
      | .error p => .error p
      | .ok s1 => .ok (s1, w) := by
  cases a with
  | broadcast db => exact absurd rfl (ha db)
  | notify m => rfl
  | connect ok => rfl
  | recv c ok => rfl
  | tick c ok => rfl
  | done c => rfl

theorem workerOK_mono (s s1 : State) (w : Option Fanning) (hd : s1.drained = s.drained)
    (hnext : s.next ≤ s1.next) (hw : WorkerOK s w) : WorkerOK s1 w := by
  intro f hf
  obtain ⟨h1, h2, h3, h4, h5⟩ := hw f hf
  refine ⟨by rw [hd]; exact h1, h2, h3, fun k hk => ?_, h5⟩
  have := h4 k hk
  omega

theorem noReplay_same (b : Nat) (old : List Message) (s s1 : State) (w : Option Fanning)
    (hd : s1.drained = s.drained) (hpl : (s1.chans b).placed = (s.chans b).placed)
    (hn : NoReplay b old s w) : NoReplay b old s1 w := by
  obtain ⟨e, sub, h1, h2, h3, h4⟩ := hn
  exact ⟨e, sub, by rw [hd]; exact h1, by rw [hpl]; exact h2, h3, h4⟩

/-- A move that goes through keeps the invariant of the handler, the invariant of
the worker, and `NoReplay`. -/
theorem fine_step_ok (b : Nat) (old : List Message) (s s1 : State)
    (w w1 : Option Fanning) (mv : Move) (hinv : Invariant s) (hw : WorkerOK s w)
    (hn : NoReplay b old s w) (hstep : fineStep s w mv = .ok (s1, w1)) :
    Invariant s1 ∧ WorkerOK s1 w1 ∧ NoReplay b old s1 w1 := by
  cases mv with
  | act a =>
    by_cases ha : ∀ db, a ≠ .broadcast db
    · obtain ⟨s2, hs2, hinv2, hd, hpl, hnext⟩ := step_quiet s a hinv ha
      rw [fine_act s w a ha, hs2] at hstep
      cases hstep
      exact ⟨hinv2, workerOK_mono s _ w hd hnext hw, noReplay_same b old s _ w hd (hpl b) hn⟩
    · have hex : ∃ db, a = .broadcast db := by
        by_contra hne
        exact ha (fun db e => hne ⟨db, e⟩)
      obtain ⟨db, rfl⟩ := hex
      cases w with
      | some f =>
        simp only [fineStep] at hstep
        cases hstep
        exact ⟨hinv, hw, hn⟩
      | none =>
        cases hq : s.notify with
        | nil =>
          simp only [fineStep, broadcast.enter, hq] at hstep
          cases hstep
          exact ⟨hinv, hw, hn⟩
        | cons m rest =>
          simp only [fineStep, broadcast.enter, hq] at hstep
          cases hstep
          refine ⟨invariant_dequeue s m rest hinv hq, ?_, ?_⟩
          · intro f hf
            cases hf
            exact ⟨⟨s.drained, m, rfl, db, rfl⟩, fun l hl => (by cases hl), fun _ => rfl,
              fun k hk => (by cases hk), fun k hk => (by cases hk)⟩
          · obtain ⟨e, sub, h1, h2, h3, _⟩ := hn
            refine ⟨e ++ [m], sub, ?_, h2, h3.trans (List.sublist_append_left _ _), ?_⟩
            · show s.drained ++ [m] = old ++ (e ++ [m])
              rw [h1, List.append_assoc]
            · intro f _
              exact ⟨by simp, fun _ => by simpa using h3⟩
  | next =>
    cases w with
    | none =>
      simp only [fineStep] at hstep
      cases hstep
      exact ⟨hinv, hw, hn⟩
    | some f =>
      cases hcc : f.clientChan with
      | some c =>
        simp only [fineStep, hcc] at hstep
        cases hstep
        exact ⟨hinv, hw, hn⟩
      | none =>
        obtain ⟨hlast, htodo, hnone, hprod, _⟩ := hw f rfl
        have hl : (f.todo.getD s.clients).Nodup ∧
            ∀ k ∈ f.todo.getD s.clients, k ∉ f.produced := by
          cases ht : f.todo with
          | none =>
            rw [hnone ht]
            exact ⟨hinv.nodup, fun k _ => List.not_mem_nil k⟩
          | some l => exact htodo l ht
        cases hfl : (f.todo.getD s.clients).filter (fun c => decide (c ∈ s.clients)) with
        | nil =>
          simp only [fineStep, hcc, broadcast.next, hfl] at hstep
          cases hstep
          obtain ⟨e, sub, h1, h2, h3, _⟩ := hn
          exact ⟨hinv, fun f hf => (by cases hf), e, sub, h1, h2, h3, fun f hf => (by cases hf)⟩
        | cons c rest =>
          simp only [fineStep, hcc, broadcast.next, hfl] at hstep
          cases hstep
          have hnd : (c :: rest).Nodup := hfl ▸ List.Nodup.filter _ hl.1
          have hmem : ∀ k ∈ c :: rest, k ∈ f.todo.getD s.clients ∧ k ∈ s.clients := by
            intro k hk
            have : k ∈ (f.todo.getD s.clients).filter (fun c => decide (c ∈ s.clients)) :=
              hfl ▸ hk
            simpa using List.mem_filter.mp this
          obtain ⟨hcnot, hrest⟩ := List.nodup_cons.mp hnd
          have hcprod : c ∉ f.produced := hl.2 c (hmem c (List.mem_cons_self _ _)).1
          refine ⟨hinv, ?_, ?_⟩
          · intro f1 hf1
            cases hf1
            refine ⟨hlast, ?_, fun h => (by cases h), ?_, ?_⟩
            · intro l hl1
              cases hl1
              refine ⟨hrest, fun k hk => ?_⟩
              have hk1 := hl.2 k (hmem k (List.mem_cons_of_mem _ hk)).1
              intro hk2
              rcases List.mem_cons.mp hk2 with e | e
              · exact hcnot (e ▸ hk)
              · exact hk1 e
            · intro k hk
              rcases List.mem_cons.mp hk with e | e
              · have hc1 := (hinv.registered c (hmem c (List.mem_cons_self _ _)).2).1
                omega
              · exact hprod k e
            · intro k hk
              cases hk
              exact List.mem_cons_self _ _
          · obtain ⟨e, sub, h1, h2, h3, h4⟩ := hn
            refine ⟨e, sub, h1, h2, h3, ?_⟩
            intro f1 hf1
            cases hf1
            obtain ⟨hne, hcl⟩ := h4 f rfl
            refine ⟨hne, fun hb => hcl (Or.inl ?_)⟩
            rcases hb with hb | hb
            · exact fun hbp => hb (List.mem_cons_of_mem _ hbp)
            · cases hb
              exact hcprod
  | late c =>
    cases w with
    | none =>
      simp only [fineStep] at hstep
      cases hstep
      exact ⟨hinv, hw, hn⟩
    | some f =>
      cases hcc : f.clientChan with
      | some c0 =>
        simp only [fineStep, hcc] at hstep
        cases hstep
        exact ⟨hinv, hw, hn⟩
      | none =>
        obtain ⟨hlast, htodo, hnone, hprod, _⟩ := hw f rfl
        cases ht : f.todo with
        | none =>
          simp only [fineStep, hcc, broadcast.late, ht] at hstep
          cases hstep
          exact ⟨hinv, hw, hn⟩
        | some l =>
          by_cases hcond : c ∈ s.clients ∧ c ∉ l ∧ c ∉ f.produced
          · simp only [fineStep, hcc, broadcast.late, ht, hcond, and_self, if_true] at hstep
            cases hstep
            refine ⟨hinv, ?_, ?_⟩
            · intro f1 hf1
              cases hf1
              refine ⟨hlast, ?_, fun h => (by cases h), ?_, ?_⟩
              · intro l1 hl1
                cases hl1
                refine ⟨(htodo l ht).1, fun k hk hk2 => ?_⟩
                rcases List.mem_cons.mp hk2 with e | e
                · exact hcond.2.1 (e ▸ hk)
                · exact (htodo l ht).2 k hk e
              · intro k hk
                rcases List.mem_cons.mp hk with e | e
                · have hc1 := (hinv.registered c hcond.1).1
                  omega
                · exact hprod k e
              · intro k hk
                cases hk
                exact List.mem_cons_self _ _
            · obtain ⟨e, sub, h1, h2, h3, h4⟩ := hn
              refine ⟨e, sub, h1, h2, h3, ?_⟩
              intro f1 hf1
              cases hf1
              obtain ⟨hne, hcl⟩ := h4 f rfl
              refine ⟨hne, fun hb => hcl (Or.inl ?_)⟩
              rcases hb with hb | hb
              · exact fun hbp => hb (List.mem_cons_of_mem _ hbp)
              · cases hb
                exact hcond.2.2
          · simp only [fineStep, hcc, broadcast.late, ht, hcond, if_false] at hstep
            cases hstep
            exact ⟨hinv, hw, hn⟩
  | send =>
    cases w with
    | none =>
      simp only [fineStep] at hstep
      cases hstep
      exact ⟨hinv, hw, hn⟩
    | some f =>
      cases hcc : f.clientChan with
      | none =>
        simp only [fineStep, hcc] at hstep
        cases hstep
        exact ⟨hinv, hw, hn⟩
      | some c =>
        obtain ⟨hlast, htodo, hnone, hprod, hcur⟩ := hw f rfl
        have hcp : c ∈ f.produced := hcur c hcc
        cases hsend : (s.chans c).trySend f.sseMsg with
        | error p =>
          simp only [fineStep, hcc, broadcast.send, hsend] at hstep
          cases hstep
        | ok ch =>
          simp only [fineStep, hcc, broadcast.send, hsend] at hstep
          cases hstep
          obtain ⟨_, hch⟩ := trySend_ok _ _ _ hsend
          subst hch
          refine ⟨invariant_offer s c f.sseMsg hinv (hprod c hcp), ?_, ?_⟩
          · intro f1 hf1
            cases hf1
            exact ⟨hlast, htodo, hnone, hprod, fun k hk => (by cases hk)⟩
          · obtain ⟨e, sub, h1, h2, h3, h4⟩ := hn
            obtain ⟨hne, hcl⟩ := h4 f rfl
            obtain ⟨init, m, hdr, hbuilt⟩ := hlast
            by_cases hcb : c = b
            · subst hcb
              have hsub := hcl (Or.inr hcc)
              have he : e = e.dropLast ++ [m] :=
                last_of_append old e init m (by rw [← h1]; exact hdr) hne
              rcases offer_placed (s.chans c) f.sseMsg with hpl | hpl
              · refine ⟨e, sub ++ [m], h1, ?_, ?_, ?_⟩
                · show List.Forall₂ Built
                    ((Function.update s.chans c ((s.chans c).offer f.sseMsg)) c).placed _
                  rw [Function.update_same, hpl]
                  exact List.rel_append h2 (List.Forall₂.cons hbuilt List.Forall₂.nil)
                · rw [he]
                  exact List.Sublist.append hsub (List.Sublist.refl _)
                · intro f1 hf1
                  cases hf1
                  refine ⟨hne, fun hb => ?_⟩
                  rcases hb with hb | hb
                  · exact absurd hcp hb
                  · cases hb
              · refine ⟨e, sub, h1, ?_, h3, ?_⟩
                · show List.Forall₂ Built
                    ((Function.update s.chans c ((s.chans c).offer f.sseMsg)) c).placed _
                  rw [Function.update_same, hpl]
                  exact h2
                · intro f1 hf1
                  cases hf1
                  refine ⟨hne, fun hb => ?_⟩
                  rcases hb with hb | hb
                  · exact absurd hcp hb
                  · cases hb
            · refine ⟨e, sub, h1, ?_, h3, ?_⟩
              · show List.Forall₂ Built
                  ((Function.update s.chans c ((s.chans c).offer f.sseMsg)) b).placed _
                rw [Function.update_noteq (fun hbc => hcb hbc.symm)]
                exact h2
              · intro f1 hf1
                cases hf1
                refine ⟨hne, fun hb => hcl (Or.inl ?_)⟩
                rcases hb with hb | hb
                · exact hb
                · cases hb

theorem fine_run_ok (b : Nat) (old : List Message) (moves : List Move) :
    ∀ (s s1 : State) (w w1 : Option Fanning), Invariant s → WorkerOK s w →
      NoReplay b old s w → fineRun s w moves = .ok (s1, w1) →
      Invariant s1 ∧ WorkerOK s1 w1 ∧ NoReplay b old s1 w1 := by
  induction moves with
  | nil =>
    intro s s1 w w1 hinv hw hn hrun
    cases hrun
    exact ⟨hinv, hw, hn⟩
  | cons mv rest ih =>
    intro s s1 w w1 hinv hw hn hrun
    cases hs : fineStep s w mv with
    | error p =>
      simp only [fineRun, hs] at hrun
      cases hrun
    | ok r =>
      obtain ⟨s2, w2⟩ := r
      simp only [fineRun, hs] at hrun
      obtain ⟨hinv2, hw2, hn2⟩ := fine_step_ok b old s s2 w w2 mv hinv hw hn hs
      exact ih s2 s1 w2 w1 hinv2 hw2 hn2 hrun

theorem fineRun_append (pre post : List Move) :
    ∀ (s s1 : State) (w w1 : Option Fanning), fineRun s w pre = .ok (s1, w1) →
      fineRun s w (pre ++ post) = fineRun s1 w1 post := by
  induction pre with
  | nil =>
    intro s s1 w w1 h
    cases h
    rfl
  | cons mv rest ih =>
    intro s s1 w w1 h
    cases hs : fineStep s w mv with
    | error p =>
      simp only [fineRun, hs] at h
      cases h
    | ok r =>
      obtain ⟨s2, w2⟩ := r
      simp only [fineRun, hs, List.cons_append] at h ⊢
      exact ih s2 s1 w2 w1 h

/-! ## Lemmas on `CreateMessage` -/

/-- The message that line 66 leaves, whether the re-read gets through or not,
has the columns of the row that was just inserted, provided the key of that row
is not the key of an older row. -/
theorem reload_after_Create (db : DB) (m : Message) (key : Nat) (now : Time) (ok : Bool)
    (hd : m.DeletedAt = none) (hfresh : ∀ r ∈ db.messages, r.ID ≠ key) :
    (((db.Create m key now).2.reached ok).First (db.Create m key now).1).ID = key ∧
    (((db.Create m key now).2.reached ok).First (db.Create m key now).1).GroupID = m.GroupID ∧
    (((db.Create m key now).2.reached ok).First (db.Create m key now).1).User = m.User ∧
    (((db.Create m key now).2.reached ok).First (db.Create m key now).1).Content = m.Content := by
  by_cases hdown : ((db.Create m key now).2.reached ok).down = true
  · rw [First_down _ _ hdown]
    exact ⟨rfl, rfl, rfl, rfl⟩
  · have hnone : db.messages.find? (fun r => r.ID == key && r.DeletedAt.isNone) = none := by
      rw [List.find?_eq_none]
      intro r hr
      have := hfresh r hr
      simp only [Bool.and_eq_true, beq_iff_eq, not_and]
      intro e
      exact absurd e this
    have hfound : ((db.Create m key now).2.reached ok).messages.find?
        (fun r => r.ID == (db.Create m key now).1.ID && r.DeletedAt.isNone)
        = some (db.Create m key now).1 := by
      simp [DB.Create, DB.reached, List.find?_append, hnone, hd]
    rw [First_found _ _ _ (by simpa using hdown) hfound]
    obtain ⟨c1, c2, c3, c4, _, _⟩ := preloadGroup_columns
      ((db.Create m key now).2.reached ok)
      { (db.Create m key now).1 with Group := (db.Create m key now).1.Group }
    rw [c1, c2, c3, c4]
    exact ⟨rfl, rfl, rfl, rfl⟩

theorem groupByID_of_named (db : DB) (g : Group) (name : String)
    (h : db.groupNamed name = some g) : ∃ g1, db.groupByID g.ID = some g1 := by
  have hmem : g ∈ db.groups := List.mem_of_find?_eq_some h
  have : (db.groups.find? (fun x => x.ID == g.ID)).isSome := by
    rw [List.find?_isSome]
    exact ⟨g, hmem, by simp⟩
  exact Option.isSome_iff_exists.mp this

theorem query_up {α : Type} (db : DB) (hit : Option α) (hup : db.down = false) :
    (db.reached true).query hit =
      match hit with
      | some a => .row a
      | none => .notFound := by
  simp [DB.query, DB.reached, hup]

theorem query_down {α : Type} (db : DB) (hit : Option α) (ok : Bool)
    (h : db.down = true ∨ ok = false) : (db.reached ok).query hit = .failed := by
  rcases h with h | h <;> simp [DB.query, DB.reached, h]

/-! ## The claims, continued -/

/-- C5 (as amended): take any run in which the worker goes statement by
statement, and a `StreamMessages` call that registers its channel after the
moves `pre`.  Whatever follows, everything placed on that channel is built, in
order and each at most once, from messages whose fan-out was not over at the
registration: the message the worker was then fanning out, if any, and those
it dequeued later.  A message whose fan-out was over before the registration
(`settled`) is never placed on it. -/
theorem no_replay_of_fanned_out (pre post : List Move) (ok : Bool) (s0 s1 : State)
    (w0 w1 : Option Fanning)
    (h0 : fineRun NewSSEHandler none pre = .ok (s0, w0))
    (h1 : fineRun NewSSEHandler none (pre ++ .act (.connect ok) :: post) = .ok (s1, w1)) :
    s0.next ∈ (StreamMessages.start s0 ok).clients ∧
    ∃ d sub, s1.drained = settled s0 w0 ++ d ∧ sub.Sublist d ∧
      List.Forall₂ Built (s1.chans s0.next).placed sub := by
  have hn0 : NoReplay 0 [] NewSSEHandler none :=
    ⟨[], [], rfl, by simp [NewSSEHandler, Chan.make, Chan.placed], List.Sublist.refl _,
      fun f hf => (by cases hf)⟩
  obtain ⟨hinv0, hw0, _⟩ := fine_run_ok 0 [] pre NewSSEHandler s0 none w0 invariant_init
    (fun f hf => (by cases hf)) hn0 h0
  have hrun : fineRun (StreamMessages.start s0 ok) w0 post = .ok (s1, w1) := by
    rw [fineRun_append pre _ NewSSEHandler s0 none w0 h0] at h1
    simpa only [fineRun, fineStep, step] using h1
  have hinvB := invariant_start s0 ok hinv0
  have hwB : WorkerOK (StreamMessages.start s0 ok) w0 :=
    workerOK_mono s0 _ w0 rfl (by simp [StreamMessages.start]) hw0
  have hempty : ((StreamMessages.start s0 ok).chans s0.next).placed = [] := by
    simp [StreamMessages.start, Chan.make, Chan.placed]
  have hnB : NoReplay s0.next (settled s0 w0) (StreamMessages.start s0 ok) w0 := by
    cases w0 with
    | none =>
      exact ⟨[], [], by simp [settled, StreamMessages.start], by rw [hempty]; exact .nil,
        List.Sublist.refl _, fun f hf => (by cases hf)⟩
    | some f =>
      obtain ⟨⟨init, m, hdr, _⟩, _⟩ := hw0 f rfl
      refine ⟨[m], [], ?_, by rw [hempty]; exact .nil, List.nil_sublist _, fun f1 _ =>
        ⟨by simp, fun _ => List.nil_sublist _⟩⟩
      show s0.drained = s0.drained.dropLast ++ [m]
      rw [hdr]
      simp
  obtain ⟨_, _, e, sub, hd, hrel, hsub, _⟩ :=
    fine_run_ok s0.next (settled s0 w0) post _ s1 w0 w1 hinvB hwB hnB hrun
  refine ⟨?_, e, sub, hd, hsub, hrel⟩
  rw [start_clients s0 ok hinv0]
  simp

/-- C5, witness: `hi` is published and fanned out to nobody, then channel 0 is
registered, then a second message is published and fanned out: only the second
is placed on channel 0.  When `hi` is dequeued but its loop is not entered yet
at the registration, it is placed on channel 0. -/
theorem no_replay_of_fanned_out_witness :
    (∃ s0 s1 w1,
      fineRun NewSSEHandler none
        [.act (.notify hi), .act (.broadcast emptyStore), .next] = .ok (s0, none) ∧
      fineRun NewSSEHandler none
        ([.act (.notify hi), .act (.broadcast emptyStore), .next] ++ .act (.connect true) ::
          [.act (.notify { hi with ID := 2 }), .act (.broadcast emptyStore), .next, .send,
            .next]) = .ok (s1, w1) ∧
      settled s0 none = [hi] ∧ s0.next = 0 ∧
      (s1.chans 0).placed = [⟨"message", { hi with ID := 2 }⟩] ∧
      ∃ d sub, s1.drained = settled s0 none ++ d ∧ sub.Sublist d ∧
        List.Forall₂ Built (s1.chans s0.next).placed sub) ∧
    (∃ s1 w1,
      fineRun NewSSEHandler none
        [.act (.notify hi), .act (.broadcast emptyStore), .act (.connect true), .next, .send]
        = .ok (s1, w1) ∧
      (s1.chans 0).placed = [⟨"message", hi⟩]) :=
  ⟨⟨_, _, _, rfl, rfl, by decide, by decide, by decide,
      (no_replay_of_fanned_out
        [.act (.notify hi), .act (.broadcast emptyStore), .next]
        [.act (.notify { hi with ID := 2 }), .act (.broadcast emptyStore), .next, .send, .next]
        true _ _ none _ rfl rfl).2⟩,
    ⟨_, _, rfl, by decide⟩⟩

/-- C11 (what the code does): a subscriber registers channel 0, `hi` is
published, and the worker enters its loop and binds `clientChan` to channel 0,
which is registered and open; the session then sees its context cancelled and
runs its cleanup, which deletes channel 0 from `h.clients` and closes it; the
worker then runs its `select` on the channel it holds and panics with a send on
a closed channel. -/
theorem fan_out_sends_on_closed_channel :
    (∃ s w, fineRun NewSSEHandler none
        [.act (.connect true), .act (.notify hi), .act (.broadcast emptyStore), .next]
        = .ok (s, some w) ∧
      w.clientChan = some 0 ∧ s.clients = [0] ∧ (s.chans 0).closed = false) ∧
    (∃ s w, fineRun NewSSEHandler none
        [.act (.connect true), .act (.notify hi), .act (.broadcast emptyStore), .next,
          .act (.done 0)]
        = .ok (s, some w) ∧
      w.clientChan = some 0 ∧ s.clients = [] ∧ (s.chans 0).closed = true ∧
      (s.sess 0).phase = .returned) ∧
    fineRun NewSSEHandler none
      [.act (.connect true), .act (.notify hi), .act (.broadcast emptyStore), .next,
        .act (.done 0), .send]
      = .error .sendOnClosedChannel :=
  ⟨⟨_, _, rfl, by decide, by decide, by decide⟩,
    ⟨_, _, rfl, by decide, by decide, by decide, by decide⟩, rfl⟩

/-- C12: for a request with non-empty user and content and no group id, on a
store within reach, (1) when the store has a group named "SRE Bootcamp" and the
insert succeeds - the handler reaches it, the two group queries getting
through, and the store assigns a key that is not zero and not the key of an
older row - the response is 201 with a message that has the user and content of
the request, the key assigned as its id, hence a non-zero id, and the id of
that group as group id, whether the re-read of line 66 gets through or not; the
store gains that row and the hub, when there is one, is notified of that
message; (2) when the store has no such group, the response is the error 500
"Default group not found", and the store and the hub are left as they were,
whatever the store does with the calls; (3) when one of the two group queries
does not get through, or the insert fails, the response is an error 500 and the
store and the hub are left as they were. -/
theorem CreateMessage_default_group (sseHandler : Option State) (db : DB)
    (req : CreateMessageRequest) (env : Outcomes) (hu : req.User ≠ "")
    (hc : req.Content ≠ "") (hg : req.GroupID = 0) (hup : db.down = false) :
    (∀ g key now, db.groupNamed "SRE Bootcamp" = some g →
      env.defaultGroup = true → env.group = true → env.insert = some (key, now) →
      key ≠ 0 → (∀ r ∈ db.messages, r.ID ≠ key) →
      ∃ m db1, MessageHandler.CreateMessage sseHandler db (some req) env =
          (⟨201, .message m⟩, db1, sseHandler.map (fun h => NotifyNewMessage h m)) ∧
        m.User = req.User ∧ m.Content = req.Content ∧ m.ID = key ∧ m.ID ≠ 0 ∧
        m.GroupID = g.ID ∧ db1.groups = db.groups ∧
        ∃ row, db1.messages = db.messages ++ [row] ∧ row.ID = m.ID ∧ row.User = m.User ∧
          row.Content = m.Content ∧ row.GroupID = m.GroupID) ∧
    (db.groupNamed "SRE Bootcamp" = none →
      MessageHandler.CreateMessage sseHandler db (some req) env =
        (⟨500, .obj [("error", "Default group not found")]⟩, db, sseHandler)) ∧
    (env.defaultGroup = false →
      MessageHandler.CreateMessage sseHandler db (some req) env =
        (⟨500, .obj [("error", "Default group not found")]⟩, db, sseHandler)) ∧
    (∀ g, db.groupNamed "SRE Bootcamp" = some g → env.defaultGroup = true →
      env.group = false →
      MessageHandler.CreateMessage sseHandler db (some req) env =
        (⟨500, .obj [("error", "Database error")]⟩, db, sseHandler)) ∧
    (∀ g, db.groupNamed "SRE Bootcamp" = some g → env.defaultGroup = true →
      env.group = true → env.insert = none →
      MessageHandler.CreateMessage sseHandler db (some req) env =
        (⟨500, .obj [("error", "Failed to create message")]⟩, db, sseHandler)) := by
  have hbind : ShouldBindJSON (some req) = some req := by
    simp [ShouldBindJSON, hu, hc]
  refine ⟨?_, ?_, ?_, ?_, ?_⟩
  · intro g key now hnamed hq1 hq2 hins hkey hfresh
    obtain ⟨g1, hg1⟩ := groupByID_of_named db g "SRE Bootcamp" hnamed
    obtain ⟨c1, c2, c3, c4⟩ := reload_after_Create db
      { Message.zero with GroupID := g.ID, User := req.User, Content := req.Content }
      key now env.reload rfl hfresh
    refine ⟨((db.Create { Message.zero with
        GroupID := g.ID, User := req.User, Content := req.Content } key now).2.reached
        env.reload).First (db.Create { Message.zero with
        GroupID := g.ID, User := req.User, Content := req.Content } key now).1,
      (db.Create { Message.zero with
        GroupID := g.ID, User := req.User, Content := req.Content } key now).2,
      ?_, c3, c4, c1, ?_, c2, rfl, _, rfl, c1.symm, c3.symm, c4.symm, c2.symm⟩
    · simp only [MessageHandler.CreateMessage, hbind, hg, if_true, hq1, hq2,
        query_up db _ hup, hnamed, hg1, hins]
    · rw [c1]
      exact hkey
  · intro hnone
    have hq : (db.reached env.defaultGroup).query (db.groupNamed "SRE Bootcamp") = .failed ∨
        (db.reached env.defaultGroup).query (db.groupNamed "SRE Bootcamp") = .notFound := by
      rw [hnone]
      unfold DB.query
      split
      · exact Or.inl rfl
      · exact Or.inr rfl
    rcases hq with hq | hq <;> simp [MessageHandler.CreateMessage, hbind, hg, hq]
  · intro hq1
    simp [MessageHandler.CreateMessage, hbind, hg, query_down db _ _ (Or.inr hq1)]
  · intro g hnamed hq1 hq2
    simp only [MessageHandler.CreateMessage, hbind, hg, if_true, hq1, query_up db _ hup,
      hnamed, query_down db _ _ (Or.inr hq2)]
  · intro g hnamed hq1 hq2 hins
    obtain ⟨g1, hg1⟩ := groupByID_of_named db g "SRE Bootcamp" hnamed
    simp only [MessageHandler.CreateMessage, hbind, hg, if_true, hq1, hq2,
      query_up db _ hup, hnamed, hg1, hins]

/-- C12, witness: the request of `TestCreateMessage` on the seeded store, where
the store assigns key 2, and on a store without the default group. -/
theorem CreateMessage_default_group_witness :
    testRequest.User ≠ "" ∧ testRequest.Content ≠ "" ∧ testRequest.GroupID = 0 ∧
    seededStore.down = false ∧ seededStore.groupNamed "SRE Bootcamp" = some hi.Group ∧
    (∀ r ∈ seededStore.messages, r.ID ≠ 2) ∧
    (MessageHandler.CreateMessage none seededStore (some testRequest) allThrough).1.status
      = 201 ∧
    emptyStore.groupNamed "SRE Bootcamp" = none ∧
    MessageHandler.CreateMessage none emptyStore (some testRequest) allThrough =
      (⟨500, .obj [("error", "Default group not found")]⟩, emptyStore, none) := by
  have h := CreateMessage_default_group none seededStore testRequest allThrough
    (by decide) (by decide) rfl rfl
  have h0 := CreateMessage_default_group none emptyStore testRequest allThrough
    (by decide) (by decide) rfl rfl
  obtain ⟨m, db1, hm, _⟩ := h.1 hi.Group 2 ⟨"2024-02-02T00:00:00Z"⟩ (by decide) rfl rfl rfl
    (by decide) (by decide)
  refine ⟨by decide, by decide, rfl, rfl, by decide, by decide, ?_, by decide,
    h0.2.1 (by decide)⟩
  rw [hm]

/-- C13: the route answers 200 with status "healthy" exactly when `database.DB`
is set, its `DB()` returns a connection and the `Ping()` of that connection
succeeds; in every other case it answers 503 with status "unhealthy"; the
answer is the same whatever the state of the hub, and the process is left as it
was. -/
theorem HealthCheck_reflects_store (w : Server) :
    (((w.healthcheck).1.status = 200 ∧ (w.healthcheck).1.body.field "status" = some "healthy") ↔
      ∃ g q, w.conn = some g ∧ g.sqlDB = some q ∧ q.ping = true) ∧
    ((¬ ∃ g q, w.conn = some g ∧ g.sqlDB = some q ∧ q.ping = true) →
      (w.healthcheck).1.status = 503 ∧
      (w.healthcheck).1.body.field "status" = some "unhealthy") ∧
    (∀ hub : State, (({ w with sseHandler := hub } : Server).healthcheck).1 = (w.healthcheck).1) ∧
    (w.healthcheck).2 = w := by
  obtain ⟨hub, conn⟩ := w
  refine ⟨?_, ?_, fun _ => rfl, rfl⟩
  · cases conn with
    | none => simp [Server.healthcheck, HealthHandler.HealthCheck]
    | some g =>
      obtain ⟨sq⟩ := g
      cases sq with
      | none => simp [Server.healthcheck, HealthHandler.HealthCheck]
      | some q =>
        obtain ⟨p⟩ := q
        cases p <;> simp [Server.healthcheck, HealthHandler.HealthCheck, Body.field]
  · intro hdown
    cases conn with
    | none => simp [Server.healthcheck, HealthHandler.HealthCheck, Body.field]
    | some g =>
      obtain ⟨sq⟩ := g
      cases sq with
      | none => simp [Server.healthcheck, HealthHandler.HealthCheck, Body.field]
      | some q =>
        obtain ⟨p⟩ := q
        cases p
        · simp [Server.healthcheck, HealthHandler.HealthCheck, Body.field]
        · exact absurd ⟨_, _, rfl, rfl, rfl⟩ hdown

/-- C13, witness: a reachable store is reported healthy and a failing ping
unhealthy, with a fresh hub as with `oneSubscriber`. -/
theorem HealthCheck_reflects_store_witness :
    ((Server.mk oneSubscriber (some ⟨some ⟨true⟩⟩)).healthcheck).1.status = 200 ∧
    ((Server.mk NewSSEHandler (some ⟨some ⟨false⟩⟩)).healthcheck).1.status = 503 ∧
    ((Server.mk NewSSEHandler (some ⟨some ⟨false⟩⟩)).healthcheck).1.body.field "status"
      = some "unhealthy" := by
  have hdown : ¬ ∃ g q, (Server.mk NewSSEHandler (some ⟨some ⟨false⟩⟩)).conn = some g ∧
      g.sqlDB = some q ∧ q.ping = true := by
    rintro ⟨g, q, h1, h2, h3⟩
    cases h1
    cases h2
    cases h3
  exact ⟨((HealthCheck_reflects_store (Server.mk oneSubscriber (some ⟨some ⟨true⟩⟩))).1.mpr
      ⟨_, _, rfl, rfl, rfl⟩).1,
    ((HealthCheck_reflects_store (Server.mk NewSSEHandler (some ⟨some ⟨false⟩⟩))).2.1 hdown).1,
    ((HealthCheck_reflects_store (Server.mk NewSSEHandler (some ⟨some ⟨false⟩⟩))).2.1 hdown).2⟩

end SreChat
